import Mathlib

/-
Verification of the dc_schema dataclass-to-JSON-Schema compiler
(src/dc_schema/__init__.py, with the legacy variant
src/dataclass_schema/dataclass_schema.py).

The embedding is a shallow one:

* Python/JSON values are modelled by the inductive `Json`; a Python dict is an
  insertion-ordered association list `Obj` with the update semantics of
  Python dict assignment and of the double-star spread operator.
* A Python type annotation (the argument of `get_field_schema`) is modelled by
  the closed inductive `Ty`, one constructor per shape recognized by the
  dispatcher in `_GetSchema.get_field_schema`.
* A dataclass is a `DcDef` (name, optional SchemaConfig annotation, ordered
  fields); the ambient module of classes is an `Env`.  Class identity
  (`dc == self.root`) is modelled by name equality, matching the spec's
  assumption that distinct named types do not share a name.
* The mutable `_GetSchema` instance state (`seen_root`, `defs`) is the
  explicit state record `St`, threaded through every call.
* Python exceptions (`assert`, `NotImplementedError`) are modelled by the
  `Res.fail` result; since the Python recursion can diverge on cyclic type
  graphs, every compiler function takes explicit fuel and returns
  `Res.fuelOut` when the fuel is exhausted.  Each function consumes one unit
  of fuel per call, so a computation diverges in Python exactly when the
  model returns `Res.fuelOut` for every amount of fuel.
-/

namespace DcSchema

/-- JSON-representable Python values: None, bool, numbers, str, list/tuple,
dict (insertion ordered).  Numeric values are modelled as integers; no claim
under verification depends on non-integer numerics. -/
inductive Json where
  | null
  | bool (b : Bool)
  | num (n : Int)
  | str (s : String)
  | arr (xs : List Json)
  | obj (kvs : List (String × Json))

/-- A Python dict with string keys, in insertion order. -/
abbrev Obj := List (String × Json)

/-- The keys of a dict, in order. -/
def keys (m : Obj) : List String := m.map Prod.fst

/-- First value stored under key `k`, if any (Python `m[k]` / `m.get(k)`). -/
def lookupKey (m : Obj) (k : String) : Option Json :=
  match m with
  | [] => none
  | (k', v) :: rest => if k' = k then some v else lookupKey rest k

/-- Python `k in m`. -/
def hasKey (m : Obj) (k : String) : Bool :=
  match m with
  | [] => false
  | (k', _) :: rest => if k' = k then true else hasKey rest k

/-- Python dict assignment `m[k] = v`: overwrite in place if the key is
present, otherwise append at the end. -/
def insertKV (m : Obj) (k : String) (v : Json) : Obj :=
  if hasKey m k then
    m.map (fun p => if p.1 = k then (k, v) else p)
  else
    m ++ [(k, v)]

/-- Python double-star dict spread: the result of evaluating a dict display
whose entries are those of `base` followed by the spread entries `extra`. -/
def mergeObj (base extra : Obj) : Obj :=
  extra.foldl (fun acc p => insertKV acc p.1 p.2) base

/-- One entry of a dict display guarded by presence of an optional value
(the embedding of the `if v is not None` comprehension filter and of the
two-branch `default` handling in the `get_*_schema` helpers). -/
def optEntry (k : String) (v : Option Json) : Obj :=
  match v with
  | some j => [(k, j)]
  | none => []

/-- The `SchemaAnnotation` frozen dataclass of src/dc_schema/__init__.py:
sixteen optional keyword values.  A `none` field is the Python `None`
default, meaning the keyword is absent. -/
structure SchemaAnn where
  title : Option Json
  description : Option Json
  examples : Option Json
  deprecated : Option Json
  min_length : Option Json
  max_length : Option Json
  pattern : Option Json
  format : Option Json
  minimum : Option Json
  maximum : Option Json
  exclusive_minimum : Option Json
  exclusive_maximum : Option Json
  multiple_of : Option Json
  min_items : Option Json
  max_items : Option Json
  unique_items : Option Json

/-- The all-absent payload `SchemaAnnotation()`. -/
def annEmpty : SchemaAnn :=
  ⟨none, none, none, none, none, none, none, none,
   none, none, none, none, none, none, none, none⟩

/-- The method `SchemaAnnotation.schema`: iterate the fields in declaration order
(`dataclasses.asdict` order), drop `None` values, and rename keys through
`key_map` (for example `min_length` becomes `minLength`). -/
def SchemaAnn.schema (a : SchemaAnn) : Obj :=
  optEntry "title" a.title ++
  optEntry "description" a.description ++
  optEntry "examples" a.examples ++
  optEntry "deprecated" a.deprecated ++
  optEntry "minLength" a.min_length ++
  optEntry "maxLength" a.max_length ++
  optEntry "pattern" a.pattern ++
  optEntry "format" a.format ++
  optEntry "minimum" a.minimum ++
  optEntry "maximum" a.maximum ++
  optEntry "exclusiveMinimum" a.exclusive_minimum ++
  optEntry "exclusiveMaximum" a.exclusive_maximum ++
  optEntry "multipleOf" a.multiple_of ++
  optEntry "minItems" a.min_items ++
  optEntry "maxItems" a.max_items ++
  optEntry "uniqueItems" a.unique_items

/-- The legacy free function `annotation(...)` of
src/dataclass_schema/dataclass_schema.py, composed with the JSON round trip
(`json.loads` of the `json.dumps` output, which is the identity on
JSON-representable mappings): build the keyword dict in the order of the
literal dict display and drop `None` values.  Its parameter list stops at
`multiple_of`; it has no `min_items`, `max_items` or `unique_items`. -/
def dcsAnn (title description examples deprecated min_length max_length
    pattern format_ minimum maximum exclusive_minimum exclusive_maximum
    multiple_of : Option Json) : Obj :=
  optEntry "title" title ++
  optEntry "description" description ++
  optEntry "examples" examples ++
  optEntry "deprecated" deprecated ++
  optEntry "minLength" min_length ++
  optEntry "maxLength" max_length ++
  optEntry "pattern" pattern ++
  optEntry "format" format_ ++
  optEntry "minimum" minimum ++
  optEntry "maximum" maximum ++
  optEntry "exclusiveMinimum" exclusive_minimum ++
  optEntry "exclusiveMaximum" exclusive_maximum ++
  optEntry "multipleOf" multiple_of

/-- The closed set of type shapes recognized by
`_GetSchema.get_field_schema`, as a tagged variant.  Generic containers with
zero arguments and with arguments are distinct constructors because
`typing.get_args` distinguishes them. -/
inductive Ty where
  | dc (name : String)
  | union (args : List Ty)
  | lit (vals : List Json)
  | annotated (base : Ty) (payloads : List SchemaAnn)
  | dict0
  | dictKV (k v : Ty)
  | list0
  | list1 (elem : Ty)
  | tuple0
  | tupleRep (elem : Ty)
  | tupleN (args : List Ty)
  | set0
  | set1 (elem : Ty)
  | nul
  | str
  | bool
  | int
  | number
  | enum (name : String) (values : List Json)
  | datetime
  | date

/-- One dataclass field: name, declared type, `field.default`
(`none` is the MISSING marker, `some Json.null` is a default of `None`),
and whether a `default_factory` is set. -/
structure Field where
  name : String
  type : Ty
  default : Option Json
  hasFactory : Bool

/-- One dataclass: name, the optional `SchemaConfig.annotation` payload, and
the ordered field list. -/
structure DcDef where
  name : String
  config : Option SchemaAnn
  fields : List Field

/-- The ambient set of dataclasses, looked up by name. -/
abbrev Env := List DcDef

def lookupDc (env : Env) (n : String) : Option DcDef :=
  env.find? (fun d => d.name = n)

/-- The `_GetSchema` instance state: the `seen_root` flag and the `defs`
registry (a dict from type name to compiled fragment). -/
structure St where
  seenRoot : Bool
  defs : Obj

/-- Python exceptions raised during compilation. -/
inductive Err where
  | unknownDc (name : String)
  | assertFail (msg : String)
  | notImpl (msg : String)

/-- Outcome of a compiler call returning a fragment: a fragment plus the
updated state, an exception, or fuel exhaustion (divergence). -/
inductive Res where
  | fuelOut
  | fail (e : Err)
  | ok (frag : Obj) (st : St)

/-- Outcome of `create_dc_schema`'s field loop: the `properties` entries and
the `required` names, in field order, plus the updated state. -/
inductive ResF where
  | fuelOut
  | fail (e : Err)
  | ok (props : Obj) (req : List String) (st : St)

/-- Outcome of compiling a list of member types (union members, tuple
positions), in order. -/
inductive ResL where
  | fuelOut
  | fail (e : Err)
  | ok (frags : List Json) (st : St)

/-- The reference fragment body for a named type:
a singleton allOf holding the dollar-ref. -/
def refDefs (name : String) : Json :=
  Json.arr [Json.obj [("$ref", Json.str ("#/$defs/" ++ name))]]

/-- The reference fragment body for the document root. -/
def refRoot : Json :=
  Json.arr [Json.obj [("$ref", Json.str "#")]]

/-- The method `_GetSchema.get_enum_schema`: register the enum fragment under its name
unless already present, then return the reference fragment; a present default
is rendered through `.value`, modelled here by the field default already
holding the member's underlying value. -/
def getEnumSchema (name : String) (values : List Json) (dflt : Option Json)
    (ann : SchemaAnn) (st : St) : Res :=
  let st' :=
    if hasKey st.defs name then st
    else
      { seenRoot := st.seenRoot,
        defs := insertKV st.defs name
          (Json.obj [("title", Json.str name), ("enum", Json.arr values)]) }
  Res.ok (mergeObj ([("allOf", refDefs name)] ++ optEntry "default" dflt) ann.schema) st'

mutual

/-- The method `_GetSchema.get_dc_schema`: root identity is name equality; a seen root
or an already-registered name yields a reference fragment; otherwise the
full fragment is built by `createDcSchema` and, for a non-root name,
registered afterwards. -/
def getDcSchema (env : Env) (root : String) (fuel : Nat) (name : String)
    (ann : SchemaAnn) (st : St) : Res :=
  match fuel with
  | 0 => Res.fuelOut
  | fuel' + 1 =>
    if name = root then
      if st.seenRoot then
        Res.ok (mergeObj [("allOf", refRoot)] ann.schema) st
      else
        createDcSchema env root fuel' name { seenRoot := true, defs := st.defs }
    else
      if hasKey st.defs name then
        Res.ok (mergeObj [("allOf", refDefs name)] ann.schema) st
      else
        match createDcSchema env root fuel' name st with
        | Res.ok frag st' =>
          Res.ok (mergeObj [("allOf", refDefs name)] ann.schema)
            { seenRoot := st'.seenRoot,
              defs := insertKV st'.defs name (Json.obj frag) }
        | r => r
termination_by structural fuel

/-- The method `_GetSchema.create_dc_schema`: the full object fragment, with the
optional `SchemaConfig.annotation` keywords spread in after `type` and
`title`, then `properties`, then `required` unless empty. -/
def createDcSchema (env : Env) (root : String) (fuel : Nat) (name : String)
    (st : St) : Res :=
  match fuel with
  | 0 => Res.fuelOut
  | fuel' + 1 =>
    match lookupDc env name with
    | none => Res.fail (Err.unknownDc name)
    | some d =>
      match compileFields env root fuel' d.fields st with
      | ResF.ok props req st' =>
        let ann := match d.config with
          | some a => a
          | none => annEmpty
        let base := mergeObj
          [("type", Json.str "object"), ("title", Json.str name)] ann.schema
        let withProps := base ++ [("properties", Json.obj props)]
        let frag :=
          if req.isEmpty then withProps
          else withProps ++ [("required", Json.arr (req.map Json.str))]
        Res.ok frag st'
      | ResF.fail e => Res.fail e
      | ResF.fuelOut => Res.fuelOut
termination_by structural fuel

/-- The field loop of `create_dc_schema`: each field's schema is compiled
with the field's declared type and default and an empty annotation, and the
field is required exactly when it has neither a default nor a factory. -/
def compileFields (env : Env) (root : String) (fuel : Nat)
    (fields : List Field) (st : St) : ResF :=
  match fuel with
  | 0 => ResF.fuelOut
  | fuel' + 1 =>
    match fields with
    | [] => ResF.ok [] [] st
    | f :: rest =>
      match getFieldSchema env root fuel' f.type f.default annEmpty st with
      | Res.ok frag st' =>
        match compileFields env root fuel' rest st' with
        | ResF.ok props req st'' =>
          ResF.ok ((f.name, Json.obj frag) :: props)
            (if f.default.isNone && !f.hasFactory then f.name :: req else req)
            st''
        | r => r
      | Res.fail e => ResF.fail e
      | Res.fuelOut => ResF.fuelOut
termination_by structural fuel

/-- The method `_GetSchema.get_field_schema`: dispatch on the shape of the declared
type.  The bodies of the `get_union_schema`, `get_literal_schema`,
`get_annotated_schema`, `get_dict_schema`, `get_list_schema`,
`get_tuple_schema`, `get_set_schema` and primitive helpers are inlined at
their dispatch sites; each branch is the corresponding helper's dict
display. -/
def getFieldSchema (env : Env) (root : String) (fuel : Nat) (ty : Ty)
    (dflt : Option Json) (ann : SchemaAnn) (st : St) : Res :=
  match fuel with
  | 0 => Res.fuelOut
  | fuel' + 1 =>
    match ty with
    | Ty.dc name => getDcSchema env root fuel' name ann st
    | Ty.union args =>
      match compileMany env root fuel' args st with
      | ResL.ok frags st' =>
        Res.ok (mergeObj ([("anyOf", Json.arr frags)] ++ optEntry "default" dflt)
          ann.schema) st'
      | ResL.fail e => Res.fail e
      | ResL.fuelOut => Res.fuelOut
    | Ty.lit vals =>
      Res.ok (mergeObj [("enum", Json.arr vals)]
        (mergeObj (optEntry "default" dflt) ann.schema)) st
    | Ty.annotated base payloads =>
      match payloads with
      | [a] => getFieldSchema env root fuel' base dflt a st
      | _ => Res.fail (Err.assertFail "Annotated must carry exactly one payload")
    | Ty.dict0 =>
      Res.ok (mergeObj [("type", Json.str "object")] ann.schema) st
    | Ty.dictKV k v =>
      match k with
      | Ty.str =>
        match getFieldSchema env root fuel' v none annEmpty st with
        | Res.ok frag st' =>
          Res.ok (mergeObj [("type", Json.str "object"),
            ("additionalProperties", Json.obj frag)] ann.schema) st'
        | r => r
      | _ => Res.fail (Err.assertFail "dict key type must be str")
    | Ty.list0 =>
      Res.ok (mergeObj [("type", Json.str "array")] ann.schema) st
    | Ty.list1 e =>
      match getFieldSchema env root fuel' e none annEmpty st with
      | Res.ok frag st' =>
        Res.ok (mergeObj [("type", Json.str "array"),
          ("items", Json.obj frag)] ann.schema) st'
      | r => r
    | Ty.tuple0 =>
      Res.ok (mergeObj [("type", Json.str "array")]
        (mergeObj (optEntry "default" dflt) ann.schema)) st
    | Ty.tupleRep e =>
      match getFieldSchema env root fuel' e none annEmpty st with
      | Res.ok frag st' =>
        Res.ok (mergeObj [("type", Json.str "array"), ("items", Json.obj frag)]
          (mergeObj (optEntry "default" dflt) ann.schema)) st'
      | r => r
    | Ty.tupleN args =>
      match compileMany env root fuel' args st with
      | ResL.ok frags st' =>
        Res.ok (mergeObj [("type", Json.str "array"),
          ("prefixItems", Json.arr frags),
          ("minItems", Json.num (Int.ofNat args.length)),
          ("maxItems", Json.num (Int.ofNat args.length))]
          (mergeObj (optEntry "default" dflt) ann.schema)) st'
      | ResL.fail e => Res.fail e
      | ResL.fuelOut => Res.fuelOut
    | Ty.set0 =>
      Res.ok (mergeObj [("type", Json.str "array"),
        ("uniqueItems", Json.bool true)] ann.schema) st
    | Ty.set1 e =>
      match getFieldSchema env root fuel' e none annEmpty st with
      | Res.ok frag st' =>
        Res.ok (mergeObj [("type", Json.str "array"), ("items", Json.obj frag),
          ("uniqueItems", Json.bool true)] ann.schema) st'
      | r => r
    | Ty.nul =>
      Res.ok (mergeObj ([("type", Json.str "null")] ++ optEntry "default" dflt)
        ann.schema) st
    | Ty.str =>
      Res.ok (mergeObj ([("type", Json.str "string")] ++ optEntry "default" dflt)
        ann.schema) st
    | Ty.bool =>
      Res.ok (mergeObj ([("type", Json.str "boolean")] ++ optEntry "default" dflt)
        ann.schema) st
    | Ty.int =>
      Res.ok (mergeObj ([("type", Json.str "integer")] ++ optEntry "default" dflt)
        ann.schema) st
    | Ty.number =>
      Res.ok (mergeObj ([("type", Json.str "number")] ++ optEntry "default" dflt)
        ann.schema) st
    | Ty.enum name values => getEnumSchema name values dflt ann st
    | Ty.datetime =>
      Res.ok (mergeObj [("type", Json.str "string"),
        ("format", Json.str "date-time")] ann.schema) st
    | Ty.date =>
      Res.ok (mergeObj [("type", Json.str "string"),
        ("format", Json.str "date")] ann.schema) st
termination_by structural fuel

/-- Compile a list of member types in order, each with no default and an
empty annotation (union members, tuple positional arguments). -/
def compileMany (env : Env) (root : String) (fuel : Nat) (tys : List Ty)
    (st : St) : ResL :=
  match fuel with
  | 0 => ResL.fuelOut
  | fuel' + 1 =>
    match tys with
    | [] => ResL.ok [] st
    | ty :: rest =>
      match getFieldSchema env root fuel' ty none annEmpty st with
      | Res.ok frag st' =>
        match compileMany env root fuel' rest st' with
        | ResL.ok frags st'' => ResL.ok (Json.obj frag :: frags) st''
        | r => r
      | Res.fail e => ResL.fail e
      | Res.fuelOut => ResL.fuelOut
termination_by structural fuel

end

/-- The fresh session state built at the start of `_GetSchema.__call__`. -/
def initSt : St := { seenRoot := false, defs := [] }

/-- The fixed dialect string. -/
def dialect : String := "https://json-schema.org/draft/2020-12/schema"

/-- The public entry point `get_schema` / `_GetSchema.__call__`: compile the
root with a fresh session, attach the registry as a trailing dollar-defs key
when non-empty, and spread the root fragment after the dialect tag. -/
def getSchema (env : Env) (rootName : String) (fuel : Nat) : Res :=
  match getDcSchema env rootName fuel rootName annEmpty initSt with
  | Res.ok frag st =>
    let frag' :=
      if st.defs.isEmpty then frag
      else insertKV frag "$defs" (Json.obj st.defs)
    Res.ok (mergeObj [("$schema", Json.str dialect)] frag') st
  | r => r

mutual

/-- No enumeration named `r` occurs anywhere inside the type.  Used to state
the spec's name-uniqueness assumption for the root: a named enumeration is
the only construct that can register a definition under an arbitrary name,
so this rules out a name collision with the root record type. -/
def tyOkB (r : String) : Ty → Bool
  | Ty.dc _ => true
  | Ty.union args => tysOkB r args
  | Ty.lit _ => true
  | Ty.annotated base _ => tyOkB r base
  | Ty.dict0 => true
  | Ty.dictKV k v => tyOkB r k && tyOkB r v
  | Ty.list0 => true
  | Ty.list1 e => tyOkB r e
  | Ty.tuple0 => true
  | Ty.tupleRep e => tyOkB r e
  | Ty.tupleN args => tysOkB r args
  | Ty.set0 => true
  | Ty.set1 e => tyOkB r e
  | Ty.nul => true
  | Ty.str => true
  | Ty.bool => true
  | Ty.int => true
  | Ty.number => true
  | Ty.enum n _ => n != r
  | Ty.datetime => true
  | Ty.date => true

/-- List version of `tyOkB`. -/
def tysOkB (r : String) : List Ty → Bool
  | [] => true
  | t :: ts => tyOkB r t && tysOkB r ts

end

/-- No enumeration named `r` occurs in any field type of the environment. -/
def envOkB (env : Env) (r : String) : Bool :=
  env.all (fun d => d.fields.all (fun f => tyOkB r f.type))

/-- State evolution invariant of one compiler call: registry keys only grow,
and key distinctness of the registry is preserved. -/
def Preserves (st st' : St) : Prop :=
  (∀ k, k ∈ keys st.defs → k ∈ keys st'.defs) ∧
  ((keys st.defs).Nodup → (keys st'.defs).Nodup)

/-- The root name, if absent from the registry, stays absent. -/
def Keeps (root : String) (st st' : St) : Prop :=
  root ∉ keys st.defs → root ∉ keys st'.defs

/-- The effective SchemaConfig payload of a dataclass. -/
def configAnn (d : DcDef) : SchemaAnn :=
  match d.config with
  | some a => a
  | none => annEmpty

/-- The trailing required entry of an object fragment: absent when no field
is required. -/
def reqEntry (req : List String) : Obj :=
  if req.isEmpty then [] else [("required", Json.arr (req.map Json.str))]

/-- A field holding a reference to the dataclass named B. -/
def fieldToB : Field := ⟨"b", Ty.dc "B", none, false⟩

/-- Root dataclass A with one field of type B. -/
def dcA : DcDef := ⟨"A", none, [fieldToB]⟩

/-- Non-root dataclass B whose field has type B itself. -/
def dcB : DcDef := ⟨"B", none, [fieldToB]⟩

/-- A type graph with a cycle among non-root dataclasses: A has a field of
type B, and B has a field of type B. -/
def envCyc : Env := [dcA, dcB]

/-- A leaf dataclass C with one text field. -/
def dcChild : DcDef := ⟨"C", none, [⟨"x", Ty.str, none, false⟩]⟩

/-- A root whose two fields both reference C. -/
def dcTwoPath : DcDef :=
  ⟨"R", none, [⟨"a", Ty.dc "C", none, false⟩, ⟨"b", Ty.dc "C", none, false⟩]⟩

/-- The same non-root named type reachable via two paths. -/
def envTwoPath : Env := [dcTwoPath, dcChild]

/-- A dataclass with a mapping field whose key type is not text. -/
def dcBadDict : DcDef :=
  ⟨"D", none, [⟨"m", Ty.dictKV Ty.int Ty.str, none, false⟩]⟩

def envBadDict : Env := [dcBadDict]

/-- A dataclass with a date field carrying a default value. -/
def dcDate : DcDef :=
  ⟨"T", none, [⟨"d", Ty.date, some (Json.str "2000-01-01"), false⟩]⟩

def envDate : Env := [dcDate]

/-- A SchemaConfig payload with a title and a description. -/
def annTitled : SchemaAnn :=
  { annEmpty with
    title := some (Json.str "the Q"),
    description := some (Json.str "a Q record") }

/-- A non-root dataclass carrying a SchemaConfig annotation. -/
def dcQ : DcDef := ⟨"Q", some annTitled, [⟨"x", Ty.int, none, false⟩]⟩

/-- A root referencing the configured dataclass Q. -/
def dcP : DcDef := ⟨"P", none, [⟨"q", Ty.dc "Q", none, false⟩]⟩

def envConfig : Env := [dcP, dcQ]

/-- A dataclass with a factory-backed field and a plain required field. -/
def dcFact : DcDef :=
  ⟨"F", none, [⟨"a", Ty.int, none, true⟩, ⟨"b", Ty.str, none, false⟩]⟩

def envFact : Env := [dcFact]

/-- A dataclass mixing a required field, a defaulted field, and a
nullable-but-defaultless field. -/
def dcMix : DcDef :=
  ⟨"M", none,
   [⟨"a", Ty.bool, none, false⟩,
    ⟨"b", Ty.int, some (Json.num 3), false⟩,
    ⟨"c", Ty.union [Ty.int, Ty.nul], none, false⟩]⟩

def envMix : Env := [dcMix]

end DcSchema

namespace DcSchema

/-- Keys of a cons. -/
theorem keys_cons (k : String) (v : Json) (m : Obj) :
    keys ((k, v) :: m) = k :: keys m := rfl

/-- Keys distribute over append. -/
theorem keys_append (a b : Obj) : keys (a ++ b) = keys a ++ keys b := by
  simp [keys]

/-- Membership test agrees with key-list membership. -/
theorem hasKey_iff (m : Obj) (k : String) : hasKey m k = true ↔ k ∈ keys m := by
  induction m with
  | nil => simp [hasKey, keys]
  | cons p rest ih =>
    obtain ⟨k', v⟩ := p
    by_cases h : k' = k
    · subst h; simp [hasKey, keys]
    · simp [hasKey, keys, h, ih, Ne.symm h]

/-- A lookup misses exactly when the key is absent. -/
theorem lookupKey_eq_none_iff (m : Obj) (k : String) :
    lookupKey m k = none ↔ k ∉ keys m := by
  induction m with
  | nil => simp [lookupKey, keys]
  | cons p rest ih =>
    obtain ⟨k', v⟩ := p
    by_cases h : k' = k
    · subst h; simp [lookupKey, keys]
    · simp [lookupKey, keys, h, ih, Ne.symm h]

/-- Looking up past an absent-key prefix. -/
theorem lookupKey_append_right (a b : Obj) (k : String) (h : k ∉ keys a) :
    lookupKey (a ++ b) k = lookupKey b k := by
  induction a with
  | nil => rfl
  | cons p rest ih =>
    obtain ⟨k', v⟩ := p
    rw [keys_cons, List.mem_cons] at h
    push_neg at h
    show (if k' = k then some v else lookupKey (rest ++ b) k) = lookupKey b k
    rw [if_neg (fun hk => h.1 hk.symm)]
    exact ih h.2

/-- Looking up inside a prefix containing the key. -/
theorem lookupKey_append_left (a b : Obj) (k : String) (h : k ∈ keys a) :
    lookupKey (a ++ b) k = lookupKey a k := by
  induction a with
  | nil => simp [keys] at h
  | cons p rest ih =>
    obtain ⟨k', v⟩ := p
    by_cases hk : k' = k
    · show (if k' = k then some v else lookupKey (rest ++ b) k) =
        (if k' = k then some v else lookupKey rest k)
      simp [hk]
    · rw [keys_cons, List.mem_cons] at h
      rcases h with h | h
      · exact absurd h.symm hk
      · show (if k' = k then some v else lookupKey (rest ++ b) k) =
          (if k' = k then some v else lookupKey rest k)
        rw [if_neg hk, if_neg hk]
        exact ih h

/-- The overwrite pass of dict assignment keeps the key list unchanged. -/
theorem keys_map_overwrite (m : Obj) (k : String) (v : Json) :
    keys (m.map (fun p => if p.1 = k then (k, v) else p)) = keys m := by
  induction m with
  | nil => rfl
  | cons p rest ih =>
    obtain ⟨k', v'⟩ := p
    by_cases h : k' = k
    · subst h; simpa [keys] using ih
    · simpa [keys, h] using ih

/-- Dict assignment on a present key keeps the key list unchanged. -/
theorem keys_insertKV_of_mem (m : Obj) (k : String) (v : Json)
    (h : k ∈ keys m) : keys (insertKV m k v) = keys m := by
  rw [insertKV, if_pos ((hasKey_iff m k).mpr h)]
  exact keys_map_overwrite m k v

/-- Dict assignment on an absent key appends it. -/
theorem keys_insertKV_of_not_mem (m : Obj) (k : String) (v : Json)
    (h : k ∉ keys m) : keys (insertKV m k v) = keys m ++ [k] := by
  rw [insertKV, if_neg (fun hk => h ((hasKey_iff m k).mp hk))]
  simp [keys]

/-- The assigned key is present afterwards. -/
theorem mem_keys_insertKV_self (m : Obj) (k : String) (v : Json) :
    k ∈ keys (insertKV m k v) := by
  by_cases h : k ∈ keys m
  · rw [keys_insertKV_of_mem m k v h]; exact h
  · rw [keys_insertKV_of_not_mem m k v h]; simp

/-- Previously present keys stay present after assignment. -/
theorem mem_keys_insertKV_of_mem (m : Obj) (k k' : String) (v : Json)
    (h : k' ∈ keys m) : k' ∈ keys (insertKV m k v) := by
  by_cases hk : k ∈ keys m
  · rw [keys_insertKV_of_mem m k v hk]; exact h
  · rw [keys_insertKV_of_not_mem m k v hk]; exact List.mem_append_left _ h

/-- A key present after assignment was present before or is the new key. -/
theorem mem_keys_insertKV_elim (m : Obj) (k k' : String) (v : Json)
    (h : k' ∈ keys (insertKV m k v)) : k' ∈ keys m ∨ k' = k := by
  by_cases hk : k ∈ keys m
  · rw [keys_insertKV_of_mem m k v hk] at h; exact Or.inl h
  · rw [keys_insertKV_of_not_mem m k v hk] at h
    rcases List.mem_append.mp h with h | h
    · exact Or.inl h
    · exact Or.inr (by simpa using h)

/-- Dict assignment preserves key distinctness. -/
theorem nodup_keys_insertKV (m : Obj) (k : String) (v : Json)
    (h : (keys m).Nodup) : (keys (insertKV m k v)).Nodup := by
  by_cases hk : k ∈ keys m
  · rw [keys_insertKV_of_mem m k v hk]; exact h
  · rw [keys_insertKV_of_not_mem m k v hk]
    simpa [List.nodup_append] using ⟨h, hk⟩

/-- The overwrite pass stores the value under the overwritten key. -/
theorem lookupKey_map_ov_self (m : Obj) (k : String) (v : Json)
    (h : k ∈ keys m) :
    lookupKey (m.map (fun p => if p.1 = k then (k, v) else p)) k = some v := by
  induction m with
  | nil => simp [keys] at h
  | cons p rest ih =>
    obtain ⟨k', v'⟩ := p
    by_cases hk : k' = k
    · subst hk
      simp only [List.map_cons]
      rw [if_pos trivial]
      show (if k' = k' then some v else _) = some v
      rw [if_pos rfl]
    · rw [keys_cons, List.mem_cons] at h
      rcases h with h | h
      · exact absurd h.symm hk
      · simp only [List.map_cons]
        show lookupKey ((if k' = k then (k, v) else (k', v')) :: _) k = some v
        rw [if_neg hk]
        show (if k' = k then some v' else _) = some v
        rw [if_neg hk]
        exact ih h

/-- The overwrite pass does not disturb other keys. -/
theorem lookupKey_map_ov_ne (m : Obj) (k k' : String) (v : Json)
    (h : k' ≠ k) :
    lookupKey (m.map (fun p => if p.1 = k then (k, v) else p)) k' =
      lookupKey m k' := by
  induction m with
  | nil => rfl
  | cons p rest ih =>
    obtain ⟨kp, vp⟩ := p
    simp only [List.map_cons]
    by_cases hp : kp = k
    · subst hp
      show lookupKey ((if kp = kp then (kp, v) else (kp, vp)) :: _) k' = _
      rw [if_pos rfl]
      show (if kp = k' then some v else _) = (if kp = k' then some vp else _)
      rw [if_neg (fun hq => h hq.symm), if_neg (fun hq => h hq.symm)]
      exact ih
    · show lookupKey ((if kp = k then (k, v) else (kp, vp)) :: _) k' = _
      rw [if_neg hp]
      show (if kp = k' then some vp else _) = (if kp = k' then some vp else _)
      by_cases hq : kp = k'
      · rw [if_pos hq, if_pos hq]
      · rw [if_neg hq, if_neg hq]
        exact ih

/-- Assignment stores the value under the key. -/
theorem lookupKey_insertKV_self (m : Obj) (k : String) (v : Json) :
    lookupKey (insertKV m k v) k = some v := by
  rw [insertKV]
  by_cases hk : hasKey m k = true
  · rw [if_pos hk]
    exact lookupKey_map_ov_self m k v ((hasKey_iff m k).mp hk)
  · rw [if_neg hk]
    have hnm : k ∉ keys m := fun h => hk ((hasKey_iff m k).mpr h)
    rw [lookupKey_append_right m _ k hnm]
    simp [lookupKey]

/-- Assignment does not disturb other keys. -/
theorem lookupKey_insertKV_ne (m : Obj) (k k' : String) (v : Json)
    (h : k' ≠ k) : lookupKey (insertKV m k v) k' = lookupKey m k' := by
  rw [insertKV]
  by_cases hk : hasKey m k = true
  · rw [if_pos hk]
    exact lookupKey_map_ov_ne m k k' v h
  · rw [if_neg hk]
    by_cases hm : k' ∈ keys m
    · exact lookupKey_append_left m _ k' hm
    · rw [lookupKey_append_right m _ k' hm]
      show (if k = k' then some v else none) = lookupKey m k'
      rw [if_neg (fun hq => h hq.symm)]
      exact ((lookupKey_eq_none_iff m k').mpr hm).symm

/-- Spreading nothing is the identity. -/
theorem mergeObj_nil (base : Obj) : mergeObj base [] = base := rfl

/-- Spreading is a left fold of assignments. -/
theorem mergeObj_cons (base : Obj) (k : String) (v : Json) (extra : Obj) :
    mergeObj base ((k, v) :: extra) = mergeObj (insertKV base k v) extra := rfl

/-- Base keys survive a spread. -/
theorem mem_keys_mergeObj_left (base extra : Obj) (k : String)
    (h : k ∈ keys base) : k ∈ keys (mergeObj base extra) := by
  induction extra generalizing base with
  | nil => exact h
  | cons p rest ih =>
    obtain ⟨k', v'⟩ := p
    rw [mergeObj_cons]
    exact ih _ (mem_keys_insertKV_of_mem base k' k v' h)

/-- A key of a spread comes from the base or from the spread entries. -/
theorem mem_keys_mergeObj_elim (base extra : Obj) (k : String)
    (h : k ∈ keys (mergeObj base extra)) : k ∈ keys base ∨ k ∈ keys extra := by
  induction extra generalizing base with
  | nil => exact Or.inl h
  | cons p rest ih =>
    obtain ⟨k', v'⟩ := p
    rw [mergeObj_cons] at h
    rcases ih _ h with h | h
    · rcases mem_keys_insertKV_elim base k' k v' h with h | h
      · exact Or.inl h
      · exact Or.inr (by simp [keys, h])
    · refine Or.inr ?_
      rw [keys_cons]
      exact List.mem_cons_of_mem _ h

/-- Spreading preserves key distinctness of the base. -/
theorem nodup_keys_mergeObj (base extra : Obj)
    (h : (keys base).Nodup) : (keys (mergeObj base extra)).Nodup := by
  induction extra generalizing base with
  | nil => exact h
  | cons p rest ih =>
    obtain ⟨k', v'⟩ := p
    rw [mergeObj_cons]
    exact ih _ (nodup_keys_insertKV base k' v' h)

/-- A spread leaves keys outside the spread entries untouched. -/
theorem lookupKey_mergeObj_not_mem (base extra : Obj) (k : String)
    (h : k ∉ keys extra) :
    lookupKey (mergeObj base extra) k = lookupKey base k := by
  induction extra generalizing base with
  | nil => rfl
  | cons p rest ih =>
    obtain ⟨k', v'⟩ := p
    rw [keys_cons, List.mem_cons] at h
    push_neg at h
    rw [mergeObj_cons, ih _ h.2]
    exact lookupKey_insertKV_ne base k' k v' h.1

/-- A spread with distinct keys stores each of its entries. -/
theorem lookupKey_mergeObj_mem (base extra : Obj) (k : String) (v : Json)
    (hnd : (keys extra).Nodup) (h : (k, v) ∈ extra) :
    lookupKey (mergeObj base extra) k = some v := by
  induction extra generalizing base with
  | nil => simp at h
  | cons p rest ih =>
    obtain ⟨k', v'⟩ := p
    rw [keys_cons] at hnd
    rw [List.mem_cons] at h
    rcases h with h | h
    · obtain ⟨hk, hv⟩ := Prod.mk.injEq .. ▸ h
      subst hk; subst hv
      rw [mergeObj_cons]
      have hnotin : k ∉ keys rest := by
        intro hmem
        exact (List.nodup_cons.mp hnd).1 hmem
      rw [lookupKey_mergeObj_not_mem _ _ _ hnotin]
      exact lookupKey_insertKV_self base k v
    · rw [mergeObj_cons]
      exact ih _ (List.nodup_cons.mp hnd).2 h

/-- The JSON Schema keyword names a metadata payload can produce, in
declaration order. -/
def annKeys : List String :=
  ["title"] ++ ["description"] ++ ["examples"] ++ ["deprecated"] ++
  ["minLength"] ++ ["maxLength"] ++ ["pattern"] ++ ["format"] ++
  ["minimum"] ++ ["maximum"] ++ ["exclusiveMinimum"] ++ ["exclusiveMaximum"] ++
  ["multipleOf"] ++ ["minItems"] ++ ["maxItems"] ++ ["uniqueItems"]

/-- Keys of a guarded entry. -/
theorem optEntry_keys_sublist (k : String) (v : Option Json) :
    (keys (optEntry k v)).Sublist [k] := by
  cases v <;> simp [optEntry, keys]

/-- A payload's keyword names form a sublist of the sixteen fixed names. -/
theorem ann_schema_keys_sublist (a : SchemaAnn) :
    (keys a.schema).Sublist annKeys := by
  show (keys (optEntry "title" a.title ++ optEntry "description" a.description ++
    optEntry "examples" a.examples ++ optEntry "deprecated" a.deprecated ++
    optEntry "minLength" a.min_length ++ optEntry "maxLength" a.max_length ++
    optEntry "pattern" a.pattern ++ optEntry "format" a.format ++
    optEntry "minimum" a.minimum ++ optEntry "maximum" a.maximum ++
    optEntry "exclusiveMinimum" a.exclusive_minimum ++
    optEntry "exclusiveMaximum" a.exclusive_maximum ++
    optEntry "multipleOf" a.multiple_of ++ optEntry "minItems" a.min_items ++
    optEntry "maxItems" a.max_items ++
    optEntry "uniqueItems" a.unique_items)).Sublist annKeys
  simp only [keys_append]
  exact (((((((((((((((optEntry_keys_sublist "title" _).append
    (optEntry_keys_sublist "description" _)).append
    (optEntry_keys_sublist "examples" _)).append
    (optEntry_keys_sublist "deprecated" _)).append
    (optEntry_keys_sublist "minLength" _)).append
    (optEntry_keys_sublist "maxLength" _)).append
    (optEntry_keys_sublist "pattern" _)).append
    (optEntry_keys_sublist "format" _)).append
    (optEntry_keys_sublist "minimum" _)).append
    (optEntry_keys_sublist "maximum" _)).append
    (optEntry_keys_sublist "exclusiveMinimum" _)).append
    (optEntry_keys_sublist "exclusiveMaximum" _)).append
    (optEntry_keys_sublist "multipleOf" _)).append
    (optEntry_keys_sublist "minItems" _)).append
    (optEntry_keys_sublist "maxItems" _)).append
    (optEntry_keys_sublist "uniqueItems" _)

/-- Every keyword a payload emits is among the sixteen fixed names. -/
theorem mem_annKeys_of_mem_schema (a : SchemaAnn) (k : String)
    (h : k ∈ keys a.schema) : k ∈ annKeys :=
  (ann_schema_keys_sublist a).subset h

/-- A payload's keyword names are distinct. -/
theorem nodup_keys_schema (a : SchemaAnn) : (keys a.schema).Nodup :=
  (ann_schema_keys_sublist a).nodup (by decide)


theorem preserves_refl (st : St) : Preserves st st :=
  ⟨fun _ h => h, id⟩

theorem preserves_trans {s1 s2 s3 : St} (h1 : Preserves s1 s2)
    (h2 : Preserves s2 s3) : Preserves s1 s3 :=
  ⟨fun k hk => h2.1 k (h1.1 k hk), fun hn => h2.2 (h1.2 hn)⟩

theorem preserves_defs_eq {s1 s2 : St} (h : s1.defs = s2.defs) :
    Preserves s1 s2 :=
  ⟨fun _ hk => h ▸ hk, fun hn => h ▸ hn⟩

theorem preserves_insertKV (st : St) (b : Bool) (k : String) (v : Json) :
    Preserves st ⟨b, insertKV st.defs k v⟩ :=
  ⟨fun _ hk => mem_keys_insertKV_of_mem _ _ _ _ hk,
   fun hn => nodup_keys_insertKV _ _ _ hn⟩

theorem keeps_refl (root : String) (st : St) : Keeps root st st := id

theorem keeps_trans {root : String} {s1 s2 s3 : St} (h1 : Keeps root s1 s2)
    (h2 : Keeps root s2 s3) : Keeps root s1 s3 :=
  fun h => h2 (h1 h)

theorem keeps_defs_eq {root : String} {s1 s2 : St} (h : s1.defs = s2.defs) :
    Keeps root s1 s2 :=
  fun hn => h ▸ hn

theorem keeps_insertKV {root : String} (st : St) (b : Bool) (k : String)
    (v : Json) (hk : k ≠ root) : Keeps root st ⟨b, insertKV st.defs k v⟩ :=
  fun hn hmem => by
    rcases mem_keys_insertKV_elim _ _ _ _ hmem with h | h
    · exact hn h
    · exact hk h.symm

/-- State evolution of the enum compiler: either no change or a fresh
registration under the enum's name. -/
theorem getEnumSchema_evo (root name : String) (values : List Json)
    (dflt : Option Json) (ann : SchemaAnn) (st : St) (frag : Obj) (st' : St)
    (h : getEnumSchema name values dflt ann st = Res.ok frag st') :
    Preserves st st' ∧ (name ≠ root → Keeps root st st') := by
  rw [getEnumSchema] at h
  by_cases hk : hasKey st.defs name = true
  · rw [if_pos hk] at h
    injection h with h1 h2
    subst h2
    exact ⟨preserves_refl st, fun _ => keeps_refl root st⟩
  · rw [if_neg hk] at h
    injection h with h1 h2
    subst h2
    exact ⟨preserves_insertKV st _ _ _, fun hne => keeps_insertKV st _ _ _ hne⟩

/-- From the environment condition, the fields of any resolvable dataclass
satisfy the type condition. -/
theorem envOkB_fields {env : Env} {root name : String} {d : DcDef}
    (henv : envOkB env root = true) (hd : lookupDc env name = some d) :
    ∀ f ∈ d.fields, tyOkB root f.type = true := by
  intro f hf
  have hmem : d ∈ env := List.mem_of_find?_eq_some hd
  rw [envOkB, List.all_eq_true] at henv
  have := henv d hmem
  rw [List.all_eq_true] at this
  exact this f hf

/-- Head and tail of the list-level type condition. -/
theorem tysOkB_cons {r : String} {t : Ty} {ts : List Ty}
    (h : tysOkB r (t :: ts) = true) : tyOkB r t = true ∧ tysOkB r ts = true := by
  rw [tysOkB, Bool.and_eq_true] at h
  exact h


/-- Master state-evolution lemma: every successful compiler call only grows
the registry key set, preserves key distinctness, and (when no enumeration
in reach shares the root's name) never registers anything under the root's
name. -/
theorem compile_evo (env : Env) (root : String) : ∀ fuel : Nat,
    (∀ name ann st frag st',
      getDcSchema env root fuel name ann st = Res.ok frag st' →
      Preserves st st' ∧ (envOkB env root = true → Keeps root st st')) ∧
    (∀ name st frag st',
      createDcSchema env root fuel name st = Res.ok frag st' →
      Preserves st st' ∧ (envOkB env root = true → Keeps root st st')) ∧
    (∀ fields st props req st',
      compileFields env root fuel fields st = ResF.ok props req st' →
      Preserves st st' ∧ (envOkB env root = true →
        (∀ f ∈ fields, tyOkB root f.type = true) → Keeps root st st')) ∧
    (∀ ty dflt ann st frag st',
      getFieldSchema env root fuel ty dflt ann st = Res.ok frag st' →
      Preserves st st' ∧ (envOkB env root = true → tyOkB root ty = true →
        Keeps root st st')) ∧
    (∀ tys st frags st',
      compileMany env root fuel tys st = ResL.ok frags st' →
      Preserves st st' ∧ (envOkB env root = true → tysOkB root tys = true →
        Keeps root st st')) := by
  intro fuel
  induction fuel with
  | zero =>
    refine ⟨?_, ?_, ?_, ?_, ?_⟩
    · intro name ann st frag st' h; exact Res.noConfusion h
    · intro name st frag st' h; exact Res.noConfusion h
    · intro fields st props req st' h; exact ResF.noConfusion h
    · intro ty dflt ann st frag st' h; exact Res.noConfusion h
    · intro tys st frags st' h; exact ResL.noConfusion h
  | succ n ih =>
    obtain ⟨ihDc, ihCreate, ihFields, ihField, ihMany⟩ := ih
    refine ⟨?_, ?_, ?_, ?_, ?_⟩
    · -- getDcSchema
      intro name ann st frag st' h
      by_cases hroot : name = root
      · by_cases hseen : st.seenRoot = true
        · have h' : Res.ok (mergeObj [("allOf", refRoot)] ann.schema) st =
              Res.ok frag st' := by
            rw [← h]
            show _ = if name = root then _ else _
            rw [if_pos hroot, if_pos hseen]
          injection h' with h1 h2
          subst h2
          exact ⟨preserves_refl st, fun _ => keeps_refl root st⟩
        · have h' : createDcSchema env root n name
              { seenRoot := true, defs := st.defs } = Res.ok frag st' := by
            rw [← h]
            show _ = if name = root then _ else _
            rw [if_pos hroot, if_neg hseen]
          have e := ihCreate name _ frag st' h'
          exact ⟨preserves_trans (preserves_defs_eq rfl) e.1,
            fun he => keeps_trans (keeps_defs_eq rfl) (e.2 he)⟩
      · by_cases hk : hasKey st.defs name = true
        · have h' : Res.ok (mergeObj [("allOf", refDefs name)] ann.schema) st =
              Res.ok frag st' := by
            rw [← h]
            show _ = if name = root then _ else _
            rw [if_neg hroot, if_pos hk]
          injection h' with h1 h2
          subst h2
          exact ⟨preserves_refl st, fun _ => keeps_refl root st⟩
        · have h' : (match createDcSchema env root n name st with
              | Res.ok frag st' =>
                Res.ok (mergeObj [("allOf", refDefs name)] ann.schema)
                  { seenRoot := st'.seenRoot,
                    defs := insertKV st'.defs name (Json.obj frag) }
              | r => r) = Res.ok frag st' := by
            rw [← h]
            show _ = if name = root then _ else _
            rw [if_neg hroot, if_neg hk]
          cases hc : createDcSchema env root n name st with
          | ok f2 s2 =>
            rw [hc] at h'
            injection h' with h1 h2
            subst h2
            have e := ihCreate name st f2 s2 hc
            refine ⟨preserves_trans e.1 (preserves_insertKV s2 _ _ _), ?_⟩
            intro he
            exact keeps_trans (e.2 he)
              (keeps_insertKV s2 _ _ _ (fun hq => hroot hq))
          | fail e => rw [hc] at h'; exact Res.noConfusion h'
          | fuelOut => rw [hc] at h'; exact Res.noConfusion h'
    · -- createDcSchema
      intro name st frag st' h
      cases hd : lookupDc env name with
      | none =>
        have h' : Res.fail (Err.unknownDc name) = Res.ok frag st' := by
          rw [← h]
          show _ = (match lookupDc env name with
            | none => Res.fail (Err.unknownDc name)
            | some d => _)
          rw [hd]
        exact Res.noConfusion h'
      | some d =>
        have h' : (match compileFields env root n d.fields st with
            | ResF.ok props req st' =>
              Res.ok (
                let ann := match d.config with
                  | some a => a
                  | none => annEmpty
                let base := mergeObj
                  [("type", Json.str "object"), ("title", Json.str name)]
                  ann.schema
                let withProps := base ++ [("properties", Json.obj props)]
                if req.isEmpty then withProps
                else withProps ++ [("required", Json.arr (req.map Json.str))]) st'
            | ResF.fail e => Res.fail e
            | ResF.fuelOut => Res.fuelOut) = Res.ok frag st' := by
          rw [← h]
          show _ = (match lookupDc env name with
            | none => Res.fail (Err.unknownDc name)
            | some d => _)
          rw [hd]
        cases hc : compileFields env root n d.fields st with
        | ok props req st2 =>
          rw [hc] at h'
          injection h' with h1 h2
          subst h2
          have e := ihFields d.fields st props req st2 hc
          exact ⟨e.1, fun he => e.2 he (envOkB_fields he hd)⟩
        | fail e => rw [hc] at h'; exact Res.noConfusion h'
        | fuelOut => rw [hc] at h'; exact Res.noConfusion h'
    · -- compileFields
      intro fields st props req st' h
      cases fields with
      | nil =>
        have h' : ResF.ok [] [] st = ResF.ok props req st' := h
        injection h' with h1 h2 h3
        subst h3
        exact ⟨preserves_refl st, fun _ _ => keeps_refl root st⟩
      | cons f rest =>
        cases hf : getFieldSchema env root n f.type f.default annEmpty st with
        | ok frag1 st1 =>
          have h' : (match compileFields env root n rest st1 with
              | ResF.ok props req st'' =>
                ResF.ok ((f.name, Json.obj frag1) :: props)
                  (if f.default.isNone && !f.hasFactory then f.name :: req
                   else req) st''
              | r => r) = ResF.ok props req st' := by
            rw [← h]
            show _ = (match getFieldSchema env root n f.type f.default annEmpty st with
              | Res.ok frag st' => _
              | Res.fail e => ResF.fail e
              | Res.fuelOut => ResF.fuelOut)
            rw [hf]
          cases hr : compileFields env root n rest st1 with
          | ok props2 req2 st2 =>
            rw [hr] at h'
            injection h' with h1 h2 h3
            subst h3
            have e1 := ihField f.type f.default annEmpty st frag1 st1 hf
            have e2 := ihFields rest st1 props2 req2 st2 hr
            refine ⟨preserves_trans e1.1 e2.1, ?_⟩
            intro he hfl
            exact keeps_trans (e1.2 he (hfl f (List.mem_cons_self f rest)))
              (e2.2 he (fun g hg => hfl g (List.mem_cons_of_mem f hg)))
          | fail e => rw [hr] at h'; exact ResF.noConfusion h'
          | fuelOut => rw [hr] at h'; exact ResF.noConfusion h'
        | fail e =>
          have h' : ResF.fail e = ResF.ok props req st' := by
            rw [← h]
            show _ = (match getFieldSchema env root n f.type f.default annEmpty st with
              | Res.ok frag st' => _
              | Res.fail e => ResF.fail e
              | Res.fuelOut => ResF.fuelOut)
            rw [hf]
          exact ResF.noConfusion h'
        | fuelOut =>
          have h' : ResF.fuelOut = ResF.ok props req st' := by
            rw [← h]
            show _ = (match getFieldSchema env root n f.type f.default annEmpty st with
              | Res.ok frag st' => _
              | Res.fail e => ResF.fail e
              | Res.fuelOut => ResF.fuelOut)
            rw [hf]
          exact ResF.noConfusion h'
    · -- getFieldSchema
      intro ty dflt ann st frag st' h
      cases ty with
      | dc name =>
        have e := ihDc name ann st frag st' h
        exact ⟨e.1, fun he _ => e.2 he⟩
      | union args =>
        cases hm : compileMany env root n args st with
        | ok frags st1 =>
          have h' : Res.ok (mergeObj ([("anyOf", Json.arr frags)] ++
              optEntry "default" dflt) ann.schema) st1 = Res.ok frag st' := by
            rw [← h]
            show _ = (match compileMany env root n args st with
              | ResL.ok frags st' => _
              | ResL.fail e => Res.fail e
              | ResL.fuelOut => Res.fuelOut)
            rw [hm]
          injection h' with h1 h2
          subst h2
          have e := ihMany args st frags st1 hm
          exact ⟨e.1, fun he ht => e.2 he ht⟩
        | fail e =>
          have h' : Res.fail e = Res.ok frag st' := by
            rw [← h]
            show _ = (match compileMany env root n args st with
              | ResL.ok frags st' => _
              | ResL.fail e => Res.fail e
              | ResL.fuelOut => Res.fuelOut)
            rw [hm]
          exact Res.noConfusion h'
        | fuelOut =>
          have h' : Res.fuelOut = Res.ok frag st' := by
            rw [← h]
            show _ = (match compileMany env root n args st with
              | ResL.ok frags st' => _
              | ResL.fail e => Res.fail e
              | ResL.fuelOut => Res.fuelOut)
            rw [hm]
          exact Res.noConfusion h'
      | lit vals =>
        have h' : Res.ok (mergeObj [("enum", Json.arr vals)]
            (mergeObj (optEntry "default" dflt) ann.schema)) st =
            Res.ok frag st' := h
        injection h' with h1 h2
        subst h2
        exact ⟨preserves_refl st, fun _ _ => keeps_refl root st⟩
      | annotated base payloads =>
        cases payloads with
        | nil => exact Res.noConfusion h
        | cons a tail =>
          cases tail with
          | nil =>
            have e := ihField base dflt a st frag st' h
            exact ⟨e.1, fun he ht => e.2 he ht⟩
          | cons b tail2 => exact Res.noConfusion h
      | dict0 =>
        have h' : Res.ok (mergeObj [("type", Json.str "object")] ann.schema) st =
            Res.ok frag st' := h
        injection h' with h1 h2
        subst h2
        exact ⟨preserves_refl st, fun _ _ => keeps_refl root st⟩
      | dictKV k v =>
        cases k with
        | str =>
          cases hv : getFieldSchema env root n v none annEmpty st with
          | ok frag1 st1 =>
            have h' : Res.ok (mergeObj [("type", Json.str "object"),
                ("additionalProperties", Json.obj frag1)] ann.schema) st1 =
                Res.ok frag st' := by
              rw [← h]
              show _ = (match getFieldSchema env root n v none annEmpty st with
                | Res.ok frag st' => _
                | r => r)
              rw [hv]
            injection h' with h1 h2
            subst h2
            have e := ihField v none annEmpty st frag1 st1 hv
            refine ⟨e.1, fun he ht => e.2 he ?_⟩
            have ht' : (tyOkB root Ty.str && tyOkB root v) = true := ht
            simp only [Bool.and_eq_true] at ht'
            exact ht'.2
          | fail e =>
            have h' : Res.fail e = Res.ok frag st' := by
              rw [← h]
              show _ = (match getFieldSchema env root n v none annEmpty st with
                | Res.ok frag st' => _
                | r => r)
              rw [hv]
            exact Res.noConfusion h'
          | fuelOut =>
            have h' : Res.fuelOut = Res.ok frag st' := by
              rw [← h]
              show _ = (match getFieldSchema env root n v none annEmpty st with
                | Res.ok frag st' => _
                | r => r)
              rw [hv]
            exact Res.noConfusion h'
        | dc name => exact Res.noConfusion h
        | union args => exact Res.noConfusion h
        | lit vals => exact Res.noConfusion h
        | annotated base payloads => exact Res.noConfusion h
        | dict0 => exact Res.noConfusion h
        | dictKV k2 v2 => exact Res.noConfusion h
        | list0 => exact Res.noConfusion h
        | list1 e => exact Res.noConfusion h
        | tuple0 => exact Res.noConfusion h
        | tupleRep e => exact Res.noConfusion h
        | tupleN args => exact Res.noConfusion h
        | set0 => exact Res.noConfusion h
        | set1 e => exact Res.noConfusion h
        | nul => exact Res.noConfusion h
        | bool => exact Res.noConfusion h
        | int => exact Res.noConfusion h
        | number => exact Res.noConfusion h
        | enum name values => exact Res.noConfusion h
        | datetime => exact Res.noConfusion h
        | date => exact Res.noConfusion h
      | list0 =>
        have h' : Res.ok (mergeObj [("type", Json.str "array")] ann.schema) st =
            Res.ok frag st' := h
        injection h' with h1 h2
        subst h2
        exact ⟨preserves_refl st, fun _ _ => keeps_refl root st⟩
      | list1 el =>
        cases hv : getFieldSchema env root n el none annEmpty st with
        | ok frag1 st1 =>
          have h' : Res.ok (mergeObj [("type", Json.str "array"),
              ("items", Json.obj frag1)] ann.schema) st1 = Res.ok frag st' := by
            rw [← h]
            show _ = (match getFieldSchema env root n el none annEmpty st with
              | Res.ok frag st' => _
              | r => r)
            rw [hv]
          injection h' with h1 h2
          subst h2
          have e := ihField el none annEmpty st frag1 st1 hv
          exact ⟨e.1, fun he ht => e.2 he ht⟩
        | fail e =>
          have h' : Res.fail e = Res.ok frag st' := by
            rw [← h]
            show _ = (match getFieldSchema env root n el none annEmpty st with
              | Res.ok frag st' => _
              | r => r)
            rw [hv]
          exact Res.noConfusion h'
        | fuelOut =>
          have h' : Res.fuelOut = Res.ok frag st' := by
            rw [← h]
            show _ = (match getFieldSchema env root n el none annEmpty st with
              | Res.ok frag st' => _
              | r => r)
            rw [hv]
          exact Res.noConfusion h'
      | tuple0 =>
        have h' : Res.ok (mergeObj [("type", Json.str "array")]
            (mergeObj (optEntry "default" dflt) ann.schema)) st =
            Res.ok frag st' := h
        injection h' with h1 h2
        subst h2
        exact ⟨preserves_refl st, fun _ _ => keeps_refl root st⟩
      | tupleRep el =>
        cases hv : getFieldSchema env root n el none annEmpty st with
        | ok frag1 st1 =>
          have h' : Res.ok (mergeObj [("type", Json.str "array"),
              ("items", Json.obj frag1)]
              (mergeObj (optEntry "default" dflt) ann.schema)) st1 =
              Res.ok frag st' := by
            rw [← h]
            show _ = (match getFieldSchema env root n el none annEmpty st with
              | Res.ok frag st' => _
              | r => r)
            rw [hv]
          injection h' with h1 h2
          subst h2
          have e := ihField el none annEmpty st frag1 st1 hv
          exact ⟨e.1, fun he ht => e.2 he ht⟩
        | fail e =>
          have h' : Res.fail e = Res.ok frag st' := by
            rw [← h]
            show _ = (match getFieldSchema env root n el none annEmpty st with
              | Res.ok frag st' => _
              | r => r)
            rw [hv]
          exact Res.noConfusion h'
        | fuelOut =>
          have h' : Res.fuelOut = Res.ok frag st' := by
            rw [← h]
            show _ = (match getFieldSchema env root n el none annEmpty st with
              | Res.ok frag st' => _
              | r => r)
            rw [hv]
          exact Res.noConfusion h'
      | tupleN args =>
        cases hm : compileMany env root n args st with
        | ok frags st1 =>
          have h' : Res.ok (mergeObj [("type", Json.str "array"),
              ("prefixItems", Json.arr frags),
              ("minItems", Json.num (Int.ofNat args.length)),
              ("maxItems", Json.num (Int.ofNat args.length))]
              (mergeObj (optEntry "default" dflt) ann.schema)) st1 =
              Res.ok frag st' := by
            rw [← h]
            show _ = (match compileMany env root n args st with
              | ResL.ok frags st' => _
              | ResL.fail e => Res.fail e
              | ResL.fuelOut => Res.fuelOut)
            rw [hm]
          injection h' with h1 h2
          subst h2
          have e := ihMany args st frags st1 hm
          exact ⟨e.1, fun he ht => e.2 he ht⟩
        | fail e =>
          have h' : Res.fail e = Res.ok frag st' := by
            rw [← h]
            show _ = (match compileMany env root n args st with
              | ResL.ok frags st' => _
              | ResL.fail e => Res.fail e
              | ResL.fuelOut => Res.fuelOut)
            rw [hm]
          exact Res.noConfusion h'
        | fuelOut =>
          have h' : Res.fuelOut = Res.ok frag st' := by
            rw [← h]
            show _ = (match compileMany env root n args st with
              | ResL.ok frags st' => _
              | ResL.fail e => Res.fail e
              | ResL.fuelOut => Res.fuelOut)
            rw [hm]
          exact Res.noConfusion h'
      | set0 =>
        have h' : Res.ok (mergeObj [("type", Json.str "array"),
            ("uniqueItems", Json.bool true)] ann.schema) st =
            Res.ok frag st' := h
        injection h' with h1 h2
        subst h2
        exact ⟨preserves_refl st, fun _ _ => keeps_refl root st⟩
      | set1 el =>
        cases hv : getFieldSchema env root n el none annEmpty st with
        | ok frag1 st1 =>
          have h' : Res.ok (mergeObj [("type", Json.str "array"),
              ("items", Json.obj frag1), ("uniqueItems", Json.bool true)]
              ann.schema) st1 = Res.ok frag st' := by
            rw [← h]
            show _ = (match getFieldSchema env root n el none annEmpty st with
              | Res.ok frag st' => _
              | r => r)
            rw [hv]
          injection h' with h1 h2
          subst h2
          have e := ihField el none annEmpty st frag1 st1 hv
          exact ⟨e.1, fun he ht => e.2 he ht⟩
        | fail e =>
          have h' : Res.fail e = Res.ok frag st' := by
            rw [← h]
            show _ = (match getFieldSchema env root n el none annEmpty st with
              | Res.ok frag st' => _
              | r => r)
            rw [hv]
          exact Res.noConfusion h'
        | fuelOut =>
          have h' : Res.fuelOut = Res.ok frag st' := by
            rw [← h]
            show _ = (match getFieldSchema env root n el none annEmpty st with
              | Res.ok frag st' => _
              | r => r)
            rw [hv]
          exact Res.noConfusion h'
      | nul =>
        have h' : Res.ok (mergeObj ([("type", Json.str "null")] ++
            optEntry "default" dflt) ann.schema) st = Res.ok frag st' := h
        injection h' with h1 h2
        subst h2
        exact ⟨preserves_refl st, fun _ _ => keeps_refl root st⟩
      | str =>
        have h' : Res.ok (mergeObj ([("type", Json.str "string")] ++
            optEntry "default" dflt) ann.schema) st = Res.ok frag st' := h
        injection h' with h1 h2
        subst h2
        exact ⟨preserves_refl st, fun _ _ => keeps_refl root st⟩
      | bool =>
        have h' : Res.ok (mergeObj ([("type", Json.str "boolean")] ++
            optEntry "default" dflt) ann.schema) st = Res.ok frag st' := h
        injection h' with h1 h2
        subst h2
        exact ⟨preserves_refl st, fun _ _ => keeps_refl root st⟩
      | int =>
        have h' : Res.ok (mergeObj ([("type", Json.str "integer")] ++
            optEntry "default" dflt) ann.schema) st = Res.ok frag st' := h
        injection h' with h1 h2
        subst h2
        exact ⟨preserves_refl st, fun _ _ => keeps_refl root st⟩
      | number =>
        have h' : Res.ok (mergeObj ([("type", Json.str "number")] ++
            optEntry "default" dflt) ann.schema) st = Res.ok frag st' := h
        injection h' with h1 h2
        subst h2
        exact ⟨preserves_refl st, fun _ _ => keeps_refl root st⟩
      | enum name values =>
        have h' : getEnumSchema name values dflt ann st = Res.ok frag st' := h
        have e := getEnumSchema_evo root name values dflt ann st frag st' h'
        refine ⟨e.1, fun he ht => e.2 ?_⟩
        have ht' : (name != root) = true := ht
        simpa using ht'
      | datetime =>
        have h' : Res.ok (mergeObj [("type", Json.str "string"),
            ("format", Json.str "date-time")] ann.schema) st =
            Res.ok frag st' := h
        injection h' with h1 h2
        subst h2
        exact ⟨preserves_refl st, fun _ _ => keeps_refl root st⟩
      | date =>
        have h' : Res.ok (mergeObj [("type", Json.str "string"),
            ("format", Json.str "date")] ann.schema) st = Res.ok frag st' := h
        injection h' with h1 h2
        subst h2
        exact ⟨preserves_refl st, fun _ _ => keeps_refl root st⟩
    · -- compileMany
      intro tys st frags st' h
      cases tys with
      | nil =>
        have h' : ResL.ok [] st = ResL.ok frags st' := h
        injection h' with h1 h2
        subst h2
        exact ⟨preserves_refl st, fun _ _ => keeps_refl root st⟩
      | cons t rest =>
        cases hf : getFieldSchema env root n t none annEmpty st with
        | ok frag1 st1 =>
          have h' : (match compileMany env root n rest st1 with
              | ResL.ok frags st'' => ResL.ok (Json.obj frag1 :: frags) st''
              | r => r) = ResL.ok frags st' := by
            rw [← h]
            show _ = (match getFieldSchema env root n t none annEmpty st with
              | Res.ok frag st' => _
              | Res.fail e => ResL.fail e
              | Res.fuelOut => ResL.fuelOut)
            rw [hf]
          cases hr : compileMany env root n rest st1 with
          | ok frags2 st2 =>
            rw [hr] at h'
            injection h' with h1 h2
            subst h2
            have e1 := ihField t none annEmpty st frag1 st1 hf
            have e2 := ihMany rest st1 frags2 st2 hr
            refine ⟨preserves_trans e1.1 e2.1, ?_⟩
            intro he ht
            obtain ⟨ht1, ht2⟩ := tysOkB_cons ht
            exact keeps_trans (e1.2 he ht1) (e2.2 he ht2)
          | fail e => rw [hr] at h'; exact ResL.noConfusion h'
          | fuelOut => rw [hr] at h'; exact ResL.noConfusion h'
        | fail e =>
          have h' : ResL.fail e = ResL.ok frags st' := by
            rw [← h]
            show _ = (match getFieldSchema env root n t none annEmpty st with
              | Res.ok frag st' => _
              | Res.fail e => ResL.fail e
              | Res.fuelOut => ResL.fuelOut)
            rw [hf]
          exact ResL.noConfusion h'
        | fuelOut =>
          have h' : ResL.fuelOut = ResL.ok frags st' := by
            rw [← h]
            show _ = (match getFieldSchema env root n t none annEmpty st with
              | Res.ok frag st' => _
              | Res.fail e => ResL.fail e
              | Res.fuelOut => ResL.fuelOut)
            rw [hf]
          exact ResL.noConfusion h'


/-- Anatomy of a successful `create_dc_schema` call: the resolved dataclass,
the compiled field loop, and the exact fragment layout `type`, `title`, the
SchemaConfig keywords spread in, `properties`, and the optional trailing
`required`. -/
theorem createDcSchema_shape (env : Env) (root : String) (fuel : Nat)
    (name : String) (st : St) (frag : Obj) (st' : St)
    (h : createDcSchema env root (fuel + 1) name st = Res.ok frag st') :
    ∃ d props req,
      lookupDc env name = some d ∧
      compileFields env root fuel d.fields st = ResF.ok props req st' ∧
      frag = mergeObj [("type", Json.str "object"), ("title", Json.str name)]
          (configAnn d).schema ++ [("properties", Json.obj props)] ++
          reqEntry req := by
  cases hd : lookupDc env name with
  | none =>
    have h' : Res.fail (Err.unknownDc name) = Res.ok frag st' := by
      rw [← h]
      show _ = (match lookupDc env name with
        | none => Res.fail (Err.unknownDc name)
        | some d => _)
      rw [hd]
    exact Res.noConfusion h'
  | some d =>
    have h' : (match compileFields env root fuel d.fields st with
        | ResF.ok props req st' =>
          Res.ok (
            let ann := match d.config with
              | some a => a
              | none => annEmpty
            let base := mergeObj
              [("type", Json.str "object"), ("title", Json.str name)]
              ann.schema
            let withProps := base ++ [("properties", Json.obj props)]
            if req.isEmpty then withProps
            else withProps ++ [("required", Json.arr (req.map Json.str))]) st'
        | ResF.fail e => Res.fail e
        | ResF.fuelOut => Res.fuelOut) = Res.ok frag st' := by
      rw [← h]
      show _ = (match lookupDc env name with
        | none => Res.fail (Err.unknownDc name)
        | some d => _)
      rw [hd]
    cases hc : compileFields env root fuel d.fields st with
    | ok props req st2 =>
      rw [hc] at h'
      injection h' with h1 h2
      subst h2
      refine ⟨d, props, req, rfl, hc, ?_⟩
      rw [← h1]
      cases hreq : req.isEmpty with
      | true => simp [hreq, reqEntry, configAnn]
      | false => simp [hreq, reqEntry, configAnn]
    | fail e => rw [hc] at h'; exact Res.noConfusion h'
    | fuelOut => rw [hc] at h'; exact Res.noConfusion h'

/-- Every key of a full object fragment is structural or a payload keyword. -/
theorem createDcSchema_keys (env : Env) (root : String) (fuel : Nat)
    (name : String) (st : St) (frag : Obj) (st' : St)
    (h : createDcSchema env root (fuel + 1) name st = Res.ok frag st')
    (k : String) (hk : k ∈ keys frag) :
    k = "type" ∨ k = "title" ∨ k = "properties" ∨ k = "required" ∨
      k ∈ annKeys := by
  obtain ⟨d, props, req, hd, hc, hfrag⟩ :=
    createDcSchema_shape env root fuel name st frag st' h
  rw [hfrag, keys_append, keys_append, List.mem_append, List.mem_append] at hk
  rcases hk with (hk | hk) | hk
  · rcases mem_keys_mergeObj_elim _ _ _ hk with hk | hk
    · rcases (by simpa [keys] using hk : k = "type" ∨ k = "title") with hk | hk
      · exact Or.inl hk
      · exact Or.inr (Or.inl hk)
    · exact Or.inr (Or.inr (Or.inr (Or.inr (mem_annKeys_of_mem_schema _ _ hk))))
  · exact Or.inr (Or.inr (Or.inl (by simpa [keys] using hk)))
  · rw [reqEntry] at hk
    cases hreq : req.isEmpty with
    | true => rw [if_pos hreq] at hk; simp [keys] at hk
    | false =>
      rw [if_neg (by simp [hreq])] at hk
      exact Or.inr (Or.inr (Or.inr (Or.inl (by simpa [keys] using hk))))

/-- A key that is neither structural nor a payload keyword is absent from a
full object fragment. -/
theorem createDcSchema_lookup_none (env : Env) (root : String) (fuel : Nat)
    (name : String) (st : St) (frag : Obj) (st' : St)
    (h : createDcSchema env root (fuel + 1) name st = Res.ok frag st')
    (k : String) (h1 : k ≠ "type") (h2 : k ≠ "title") (h3 : k ≠ "properties")
    (h4 : k ≠ "required") (h5 : k ∉ annKeys) :
    lookupKey frag k = none := by
  rw [lookupKey_eq_none_iff]
  intro hmem
  rcases createDcSchema_keys env root fuel name st frag st' h k hmem with
    hk | hk | hk | hk | hk
  · exact h1 hk
  · exact h2 hk
  · exact h3 hk
  · exact h4 hk
  · exact h5 hk

/-- A full object fragment carries the object type keyword. -/
theorem createDcSchema_lookup_type (env : Env) (root : String) (fuel : Nat)
    (name : String) (st : St) (frag : Obj) (st' : St)
    (h : createDcSchema env root (fuel + 1) name st = Res.ok frag st') :
    lookupKey frag "type" = some (Json.str "object") := by
  obtain ⟨d, props, req, hd, hc, hfrag⟩ :=
    createDcSchema_shape env root fuel name st frag st' h
  rw [hfrag]
  have hS : "type" ∉ keys (configAnn d).schema := fun hm => by
    have := mem_annKeys_of_mem_schema _ _ hm
    revert this
    decide
  have hmem : "type" ∈ keys (mergeObj
      [("type", Json.str "object"), ("title", Json.str name)]
      (configAnn d).schema) :=
    mem_keys_mergeObj_left _ _ _ (by simp [keys])
  have hmem2 : "type" ∈ keys (mergeObj
      [("type", Json.str "object"), ("title", Json.str name)]
      (configAnn d).schema ++ [("properties", Json.obj props)]) := by
    rw [keys_append]
    exact List.mem_append_left _ hmem
  rw [lookupKey_append_left _ _ _ hmem2, lookupKey_append_left _ _ _ hmem,
    lookupKey_mergeObj_not_mem _ _ _ hS]
  rfl

/-- A key absent from base and spread entries is absent from the spread. -/
theorem notmem_keys_mergeObj (base extra : Obj) (k : String)
    (hb : k ∉ keys base) (he : k ∉ keys extra) :
    k ∉ keys (mergeObj base extra) := fun hm => by
  rcases mem_keys_mergeObj_elim base extra k hm with hm | hm
  · exact hb hm
  · exact he hm

/-- Lookup misses on a spread when it misses base and spread entries. -/
theorem lookupKey_mergeObj_none (base extra : Obj) (k : String)
    (hb : lookupKey base k = none) (he : k ∉ keys extra) :
    lookupKey (mergeObj base extra) k = none := by
  rw [lookupKey_mergeObj_not_mem _ _ _ he]
  exact hb

/-- The `required` list of the field loop is exactly the names of the fields
with neither a default nor a factory, in declaration order. -/
theorem compileFields_req (env : Env) (root : String) :
    ∀ (fields : List Field) (fuel : Nat) (st : St) (props : Obj)
      (req : List String) (st' : St),
    compileFields env root fuel fields st = ResF.ok props req st' →
    req = (fields.filter
      (fun f => f.default.isNone && !f.hasFactory)).map Field.name := by
  intro fields
  induction fields with
  | nil =>
    intro fuel st props req st' h
    cases fuel with
    | zero => exact ResF.noConfusion h
    | succ n =>
      have h' : ResF.ok [] [] st = ResF.ok props req st' := h
      injection h' with h1 h2 h3
      rw [← h2]
      rfl
  | cons f rest ih =>
    intro fuel st props req st' h
    cases fuel with
    | zero => exact ResF.noConfusion h
    | succ n =>
      cases hf : getFieldSchema env root n f.type f.default annEmpty st with
      | ok frag1 st1 =>
        have h' : (match compileFields env root n rest st1 with
            | ResF.ok props req st'' =>
              ResF.ok ((f.name, Json.obj frag1) :: props)
                (if f.default.isNone && !f.hasFactory then f.name :: req
                 else req) st''
            | r => r) = ResF.ok props req st' := by
          rw [← h]
          show _ = (match getFieldSchema env root n f.type f.default annEmpty st with
            | Res.ok frag st' => _
            | Res.fail e => ResF.fail e
            | Res.fuelOut => ResF.fuelOut)
          rw [hf]
        cases hr : compileFields env root n rest st1 with
        | ok props2 req2 st2 =>
          rw [hr] at h'
          injection h' with h1 h2 h3
          rw [← h2, ih n st1 props2 req2 st2 hr, List.filter_cons]
          by_cases hcond : (f.default.isNone && !f.hasFactory) = true
          · rw [if_pos hcond, if_pos hcond, List.map_cons]
          · rw [if_neg hcond, if_neg hcond]
        | fail e => rw [hr] at h'; exact ResF.noConfusion h'
        | fuelOut => rw [hr] at h'; exact ResF.noConfusion h'
      | fail e =>
        have h' : ResF.fail e = ResF.ok props req st' := by
          rw [← h]
          show _ = (match getFieldSchema env root n f.type f.default annEmpty st with
            | Res.ok frag st' => _
            | Res.fail e => ResF.fail e
            | Res.fuelOut => ResF.fuelOut)
          rw [hf]
        exact ResF.noConfusion h'
      | fuelOut =>
        have h' : ResF.fuelOut = ResF.ok props req st' := by
          rw [← h]
          show _ = (match getFieldSchema env root n f.type f.default annEmpty st with
            | Res.ok frag st' => _
            | Res.fail e => ResF.fail e
            | Res.fuelOut => ResF.fuelOut)
          rw [hf]
        exact ResF.noConfusion h'

/-- Each field's entry in the `properties` mapping of the field loop is the
fragment compiled from that field's declared type and default (for distinct
field names). -/
theorem compileFields_props (env : Env) (root : String) :
    ∀ (fields : List Field) (fuel : Nat) (st : St) (props : Obj)
      (req : List String) (st' : St) (f : Field),
    compileFields env root fuel fields st = ResF.ok props req st' →
    (fields.map Field.name).Nodup → f ∈ fields →
    ∃ n1 st1 frag st2,
      getFieldSchema env root n1 f.type f.default annEmpty st1 =
        Res.ok frag st2 ∧
      lookupKey props f.name = some (Json.obj frag) := by
  intro fields
  induction fields with
  | nil =>
    intro fuel st props req st' f h hnd hf
    simp at hf
  | cons g rest ih =>
    intro fuel st props req st' f h hnd hf
    cases fuel with
    | zero => exact ResF.noConfusion h
    | succ n =>
      cases hg : getFieldSchema env root n g.type g.default annEmpty st with
      | ok frag1 st1 =>
        have h' : (match compileFields env root n rest st1 with
            | ResF.ok props req st'' =>
              ResF.ok ((g.name, Json.obj frag1) :: props)
                (if g.default.isNone && !g.hasFactory then g.name :: req
                 else req) st''
            | r => r) = ResF.ok props req st' := by
          rw [← h]
          show _ = (match getFieldSchema env root n g.type g.default annEmpty st with
            | Res.ok frag st' => _
            | Res.fail e => ResF.fail e
            | Res.fuelOut => ResF.fuelOut)
          rw [hg]
        cases hr : compileFields env root n rest st1 with
        | ok props2 req2 st2 =>
          rw [hr] at h'
          injection h' with h1 h2 h3
          rw [← h1]
          rw [List.map_cons, List.nodup_cons] at hnd
          rcases List.mem_cons.mp hf with rfl | hf
          · exact ⟨n, st, frag1, st1, hg, by
              show (if f.name = f.name then some (Json.obj frag1) else _) = _
              rw [if_pos rfl]⟩
          · have hne : g.name ≠ f.name := fun he => hnd.1 (he ▸ List.mem_map_of_mem Field.name hf)
            obtain ⟨n1, s1, fr, s2, hcall, hlook⟩ :=
              ih n st1 props2 req2 st2 f hr hnd.2 hf
            exact ⟨n1, s1, fr, s2, hcall, by
              show (if g.name = f.name then some (Json.obj frag1) else _) = _
              rw [if_neg hne]
              exact hlook⟩
        | fail e => rw [hr] at h'; exact ResF.noConfusion h'
        | fuelOut => rw [hr] at h'; exact ResF.noConfusion h'
      | fail e =>
        have h' : ResF.fail e = ResF.ok props req st' := by
          rw [← h]
          show _ = (match getFieldSchema env root n g.type g.default annEmpty st with
            | Res.ok frag st' => _
            | Res.fail e => ResF.fail e
            | Res.fuelOut => ResF.fuelOut)
          rw [hg]
        exact ResF.noConfusion h'
      | fuelOut =>
        have h' : ResF.fuelOut = ResF.ok props req st' := by
          rw [← h]
          show _ = (match getFieldSchema env root n g.type g.default annEmpty st with
            | Res.ok frag st' => _
            | Res.fail e => ResF.fail e
            | Res.fuelOut => ResF.fuelOut)
          rw [hg]
        exact ResF.noConfusion h'

/-- A payload never produces the `default` keyword. -/
theorem default_notin_schema (a : SchemaAnn) : "default" ∉ keys a.schema :=
  fun hm => by
    have := mem_annKeys_of_mem_schema _ _ hm
    revert this
    decide

set_option maxHeartbeats 2000000 in
/-- Whatever `get_dc_schema` returns carries no top-level `default`. -/
theorem getDcSchema_no_default (env : Env) (root : String) (fuel : Nat)
    (name : String) (ann : SchemaAnn) (st : St) (frag : Obj) (st' : St)
    (h : getDcSchema env root fuel name ann st = Res.ok frag st') :
    lookupKey frag "default" = none := by
  cases fuel with
  | zero => exact Res.noConfusion h
  | succ n =>
    by_cases hroot : name = root
    · by_cases hseen : st.seenRoot = true
      · have h' : Res.ok (mergeObj [("allOf", refRoot)] ann.schema) st =
            Res.ok frag st' := by
          rw [← h]
          show _ = if name = root then _ else _
          rw [if_pos hroot, if_pos hseen]
        injection h' with h1 h2
        rw [← h1]
        exact lookupKey_mergeObj_none _ _ _ rfl (default_notin_schema ann)
      · have h' : createDcSchema env root n name
            { seenRoot := true, defs := st.defs } = Res.ok frag st' := by
          rw [← h]
          show _ = if name = root then _ else _
          rw [if_pos hroot, if_neg hseen]
        cases n with
        | zero => exact Res.noConfusion h'
        | succ m =>
          exact createDcSchema_lookup_none env root m name _ frag st' h'
            "default" (by decide) (by decide) (by decide) (by decide) (by decide)
    · by_cases hk : hasKey st.defs name = true
      · have h' : Res.ok (mergeObj [("allOf", refDefs name)] ann.schema) st =
            Res.ok frag st' := by
          rw [← h]
          show _ = if name = root then _ else _
          rw [if_neg hroot, if_pos hk]
        injection h' with h1 h2
        rw [← h1]
        exact lookupKey_mergeObj_none _ _ _ rfl (default_notin_schema ann)
      · have h' : (match createDcSchema env root n name st with
            | Res.ok frag st' =>
              Res.ok (mergeObj [("allOf", refDefs name)] ann.schema)
                { seenRoot := st'.seenRoot,
                  defs := insertKV st'.defs name (Json.obj frag) }
            | r => r) = Res.ok frag st' := by
          rw [← h]
          show _ = if name = root then _ else _
          rw [if_neg hroot, if_neg hk]
        cases hc : createDcSchema env root n name st with
        | ok f2 s2 =>
          rw [hc] at h'
          injection h' with h1 h2
          rw [← h1]
          exact lookupKey_mergeObj_none _ _ _ rfl (default_notin_schema ann)
        | fail e => rw [hc] at h'; exact Res.noConfusion h'
        | fuelOut => rw [hc] at h'; exact Res.noConfusion h'

set_option maxHeartbeats 2000000 in
/-- A field compiled with the MISSING default marker never carries a
top-level `default` keyword: the fragment of a defaultless field omits
`default` entirely. -/
theorem getFieldSchema_no_default (env : Env) (root : String) :
    ∀ (fuel : Nat) (ty : Ty) (ann : SchemaAnn) (st : St) (frag : Obj)
      (st' : St),
    getFieldSchema env root fuel ty none ann st = Res.ok frag st' →
    lookupKey frag "default" = none := by
  intro fuel
  induction fuel with
  | zero =>
    intro ty ann st frag st' h
    exact Res.noConfusion h
  | succ n ih =>
    intro ty ann st frag st' h
    cases ty with
    | dc name => exact getDcSchema_no_default env root n name ann st frag st' h
    | union args =>
      cases hm : compileMany env root n args st with
      | ok frags st1 =>
        have h' : Res.ok (mergeObj ([("anyOf", Json.arr frags)] ++
            optEntry "default" none) ann.schema) st1 = Res.ok frag st' := by
          rw [← h]
          show _ = (match compileMany env root n args st with
            | ResL.ok frags st' => _
            | ResL.fail e => Res.fail e
            | ResL.fuelOut => Res.fuelOut)
          rw [hm]
        injection h' with h1 h2
        rw [← h1]
        exact lookupKey_mergeObj_none _ _ _ rfl (default_notin_schema ann)
      | fail e =>
        have h' : Res.fail e = Res.ok frag st' := by
          rw [← h]
          show _ = (match compileMany env root n args st with
            | ResL.ok frags st' => _
            | ResL.fail e => Res.fail e
            | ResL.fuelOut => Res.fuelOut)
          rw [hm]
        exact Res.noConfusion h'
      | fuelOut =>
        have h' : Res.fuelOut = Res.ok frag st' := by
          rw [← h]
          show _ = (match compileMany env root n args st with
            | ResL.ok frags st' => _
            | ResL.fail e => Res.fail e
            | ResL.fuelOut => Res.fuelOut)
          rw [hm]
        exact Res.noConfusion h'
    | lit vals =>
      have h' : Res.ok (mergeObj [("enum", Json.arr vals)]
          (mergeObj (optEntry "default" none) ann.schema)) st =
          Res.ok frag st' := h
      injection h' with h1 h2
      rw [← h1]
      refine lookupKey_mergeObj_none _ _ _ rfl
        (notmem_keys_mergeObj _ _ _ (by simp [optEntry, keys])
          (default_notin_schema ann))
    | annotated base payloads =>
      cases payloads with
      | nil => exact Res.noConfusion h
      | cons a tail =>
        cases tail with
        | nil => exact ih base a st frag st' h
        | cons b tail2 => exact Res.noConfusion h
    | dict0 =>
      have h' : Res.ok (mergeObj [("type", Json.str "object")] ann.schema) st =
          Res.ok frag st' := h
      injection h' with h1 h2
      rw [← h1]
      exact lookupKey_mergeObj_none _ _ _ rfl (default_notin_schema ann)
    | dictKV k v =>
      cases k with
      | str =>
        cases hv : getFieldSchema env root n v none annEmpty st with
        | ok frag1 st1 =>
          have h' : Res.ok (mergeObj [("type", Json.str "object"),
              ("additionalProperties", Json.obj frag1)] ann.schema) st1 =
              Res.ok frag st' := by
            rw [← h]
            show _ = (match getFieldSchema env root n v none annEmpty st with
              | Res.ok frag st' => _
              | r => r)
            rw [hv]
          injection h' with h1 h2
          rw [← h1]
          exact lookupKey_mergeObj_none _ _ _ rfl (default_notin_schema ann)
        | fail e =>
          have h' : Res.fail e = Res.ok frag st' := by
            rw [← h]
            show _ = (match getFieldSchema env root n v none annEmpty st with
              | Res.ok frag st' => _
              | r => r)
            rw [hv]
          exact Res.noConfusion h'
        | fuelOut =>
          have h' : Res.fuelOut = Res.ok frag st' := by
            rw [← h]
            show _ = (match getFieldSchema env root n v none annEmpty st with
              | Res.ok frag st' => _
              | r => r)
            rw [hv]
          exact Res.noConfusion h'
      | dc name => exact Res.noConfusion h
      | union args => exact Res.noConfusion h
      | lit vals => exact Res.noConfusion h
      | annotated base payloads => exact Res.noConfusion h
      | dict0 => exact Res.noConfusion h
      | dictKV k2 v2 => exact Res.noConfusion h
      | list0 => exact Res.noConfusion h
      | list1 e => exact Res.noConfusion h
      | tuple0 => exact Res.noConfusion h
      | tupleRep e => exact Res.noConfusion h
      | tupleN args => exact Res.noConfusion h
      | set0 => exact Res.noConfusion h
      | set1 e => exact Res.noConfusion h
      | nul => exact Res.noConfusion h
      | bool => exact Res.noConfusion h
      | int => exact Res.noConfusion h
      | number => exact Res.noConfusion h
      | enum name values => exact Res.noConfusion h
      | datetime => exact Res.noConfusion h
      | date => exact Res.noConfusion h
    | list0 =>
      have h' : Res.ok (mergeObj [("type", Json.str "array")] ann.schema) st =
          Res.ok frag st' := h
      injection h' with h1 h2
      rw [← h1]
      exact lookupKey_mergeObj_none _ _ _ rfl (default_notin_schema ann)
    | list1 el =>
      cases hv : getFieldSchema env root n el none annEmpty st with
      | ok frag1 st1 =>
        have h' : Res.ok (mergeObj [("type", Json.str "array"),
            ("items", Json.obj frag1)] ann.schema) st1 = Res.ok frag st' := by
          rw [← h]
          show _ = (match getFieldSchema env root n el none annEmpty st with
            | Res.ok frag st' => _
            | r => r)
          rw [hv]
        injection h' with h1 h2
        rw [← h1]
        exact lookupKey_mergeObj_none _ _ _ rfl (default_notin_schema ann)
      | fail e =>
        have h' : Res.fail e = Res.ok frag st' := by
          rw [← h]
          show _ = (match getFieldSchema env root n el none annEmpty st with
            | Res.ok frag st' => _
            | r => r)
          rw [hv]
        exact Res.noConfusion h'
      | fuelOut =>
        have h' : Res.fuelOut = Res.ok frag st' := by
          rw [← h]
          show _ = (match getFieldSchema env root n el none annEmpty st with
            | Res.ok frag st' => _
            | r => r)
          rw [hv]
        exact Res.noConfusion h'
    | tuple0 =>
      have h' : Res.ok (mergeObj [("type", Json.str "array")]
          (mergeObj (optEntry "default" none) ann.schema)) st =
          Res.ok frag st' := h
      injection h' with h1 h2
      rw [← h1]
      refine lookupKey_mergeObj_none _ _ _ rfl
        (notmem_keys_mergeObj _ _ _ (by simp [optEntry, keys])
          (default_notin_schema ann))
    | tupleRep el =>
      cases hv : getFieldSchema env root n el none annEmpty st with
      | ok frag1 st1 =>
        have h' : Res.ok (mergeObj [("type", Json.str "array"),
            ("items", Json.obj frag1)]
            (mergeObj (optEntry "default" none) ann.schema)) st1 =
            Res.ok frag st' := by
          rw [← h]
          show _ = (match getFieldSchema env root n el none annEmpty st with
            | Res.ok frag st' => _
            | r => r)
          rw [hv]
        injection h' with h1 h2
        rw [← h1]
        refine lookupKey_mergeObj_none _ _ _ rfl
          (notmem_keys_mergeObj _ _ _ (by simp [optEntry, keys])
            (default_notin_schema ann))
      | fail e =>
        have h' : Res.fail e = Res.ok frag st' := by
          rw [← h]
          show _ = (match getFieldSchema env root n el none annEmpty st with
            | Res.ok frag st' => _
            | r => r)
          rw [hv]
        exact Res.noConfusion h'
      | fuelOut =>
        have h' : Res.fuelOut = Res.ok frag st' := by
          rw [← h]
          show _ = (match getFieldSchema env root n el none annEmpty st with
            | Res.ok frag st' => _
            | r => r)
          rw [hv]
        exact Res.noConfusion h'
    | tupleN args =>
      cases hm : compileMany env root n args st with
      | ok frags st1 =>
        have h' : Res.ok (mergeObj [("type", Json.str "array"),
            ("prefixItems", Json.arr frags),
            ("minItems", Json.num (Int.ofNat args.length)),
            ("maxItems", Json.num (Int.ofNat args.length))]
            (mergeObj (optEntry "default" none) ann.schema)) st1 =
            Res.ok frag st' := by
          rw [← h]
          show _ = (match compileMany env root n args st with
            | ResL.ok frags st' => _
            | ResL.fail e => Res.fail e
            | ResL.fuelOut => Res.fuelOut)
          rw [hm]
        injection h' with h1 h2
        rw [← h1]
        refine lookupKey_mergeObj_none _ _ _ rfl
          (notmem_keys_mergeObj _ _ _ (by simp [optEntry, keys])
            (default_notin_schema ann))
      | fail e =>
        have h' : Res.fail e = Res.ok frag st' := by
          rw [← h]
          show _ = (match compileMany env root n args st with
            | ResL.ok frags st' => _
            | ResL.fail e => Res.fail e
            | ResL.fuelOut => Res.fuelOut)
          rw [hm]
        exact Res.noConfusion h'
      | fuelOut =>
        have h' : Res.fuelOut = Res.ok frag st' := by
          rw [← h]
          show _ = (match compileMany env root n args st with
            | ResL.ok frags st' => _
            | ResL.fail e => Res.fail e
            | ResL.fuelOut => Res.fuelOut)
          rw [hm]
        exact Res.noConfusion h'
    | set0 =>
      have h' : Res.ok (mergeObj [("type", Json.str "array"),
          ("uniqueItems", Json.bool true)] ann.schema) st =
          Res.ok frag st' := h
      injection h' with h1 h2
      rw [← h1]
      exact lookupKey_mergeObj_none _ _ _ rfl (default_notin_schema ann)
    | set1 el =>
      cases hv : getFieldSchema env root n el none annEmpty st with
      | ok frag1 st1 =>
        have h' : Res.ok (mergeObj [("type", Json.str "array"),
            ("items", Json.obj frag1), ("uniqueItems", Json.bool true)]
            ann.schema) st1 = Res.ok frag st' := by
          rw [← h]
          show _ = (match getFieldSchema env root n el none annEmpty st with
            | Res.ok frag st' => _
            | r => r)
          rw [hv]
        injection h' with h1 h2
        rw [← h1]
        exact lookupKey_mergeObj_none _ _ _ rfl (default_notin_schema ann)
      | fail e =>
        have h' : Res.fail e = Res.ok frag st' := by
          rw [← h]
          show _ = (match getFieldSchema env root n el none annEmpty st with
            | Res.ok frag st' => _
            | r => r)
          rw [hv]
        exact Res.noConfusion h'
      | fuelOut =>
        have h' : Res.fuelOut = Res.ok frag st' := by
          rw [← h]
          show _ = (match getFieldSchema env root n el none annEmpty st with
            | Res.ok frag st' => _
            | r => r)
          rw [hv]
        exact Res.noConfusion h'
    | nul =>
      have h' : Res.ok (mergeObj ([("type", Json.str "null")] ++
          optEntry "default" none) ann.schema) st = Res.ok frag st' := h
      injection h' with h1 h2
      rw [← h1]
      exact lookupKey_mergeObj_none _ _ _ rfl (default_notin_schema ann)
    | str =>
      have h' : Res.ok (mergeObj ([("type", Json.str "string")] ++
          optEntry "default" none) ann.schema) st = Res.ok frag st' := h
      injection h' with h1 h2
      rw [← h1]
      exact lookupKey_mergeObj_none _ _ _ rfl (default_notin_schema ann)
    | bool =>
      have h' : Res.ok (mergeObj ([("type", Json.str "boolean")] ++
          optEntry "default" none) ann.schema) st = Res.ok frag st' := h
      injection h' with h1 h2
      rw [← h1]
      exact lookupKey_mergeObj_none _ _ _ rfl (default_notin_schema ann)
    | int =>
      have h' : Res.ok (mergeObj ([("type", Json.str "integer")] ++
          optEntry "default" none) ann.schema) st = Res.ok frag st' := h
      injection h' with h1 h2
      rw [← h1]
      exact lookupKey_mergeObj_none _ _ _ rfl (default_notin_schema ann)
    | number =>
      have h' : Res.ok (mergeObj ([("type", Json.str "number")] ++
          optEntry "default" none) ann.schema) st = Res.ok frag st' := h
      injection h' with h1 h2
      rw [← h1]
      exact lookupKey_mergeObj_none _ _ _ rfl (default_notin_schema ann)
    | enum name values =>
      have h' : Res.ok (mergeObj ([("allOf", refDefs name)] ++
          optEntry "default" none) ann.schema)
          (if hasKey st.defs name then st
           else { seenRoot := st.seenRoot,
                  defs := insertKV st.defs name
                    (Json.obj [("title", Json.str name),
                      ("enum", Json.arr values)]) }) = Res.ok frag st' := h
      injection h' with h1 h2
      rw [← h1]
      exact lookupKey_mergeObj_none _ _ _ rfl (default_notin_schema ann)
    | datetime =>
      have h' : Res.ok (mergeObj [("type", Json.str "string"),
          ("format", Json.str "date-time")] ann.schema) st =
          Res.ok frag st' := h
      injection h' with h1 h2
      rw [← h1]
      exact lookupKey_mergeObj_none _ _ _ rfl (default_notin_schema ann)
    | date =>
      have h' : Res.ok (mergeObj [("type", Json.str "string"),
          ("format", Json.str "date")] ann.schema) st = Res.ok frag st' := h
      injection h' with h1 h2
      rw [← h1]
      exact lookupKey_mergeObj_none _ _ _ rfl (default_notin_schema ann)

/-- Spread-entry keys are present after the spread. -/
theorem mem_keys_mergeObj_right (base extra : Obj) (k : String)
    (h : k ∈ keys extra) : k ∈ keys (mergeObj base extra) := by
  induction extra generalizing base with
  | nil => simp [keys] at h
  | cons p rest ih =>
    obtain ⟨k', v'⟩ := p
    rw [keys_cons, List.mem_cons] at h
    rw [mergeObj_cons]
    rcases h with h | h
    · subst h
      exact mem_keys_mergeObj_left _ _ _ (mem_keys_insertKV_self base k v')
    · exact ih _ h

/-- C5 counterexample: a date field WITH a default value compiles to a
fragment with no `default` keyword at all — the claim as stated (that the
default is passed through into the fragment) is false on the code, because
`get_datetime_schema` and `get_date_schema` are called without the default. -/
theorem c5_date_default_dropped :
    getFieldSchema [] "R" 1 Ty.date (some (Json.str "2000-01-01")) annEmpty
      initSt =
      Res.ok [("type", Json.str "string"), ("format", Json.str "date")]
        initSt ∧
    lookupKey [("type", Json.str "string"), ("format", Json.str "date")]
      "default" = none ∧
    getSchema envDate "T" 10 = Res.ok
      [("$schema", Json.str dialect),
       ("type", Json.str "object"),
       ("title", Json.str "T"),
       ("properties", Json.obj
         [("d", Json.obj
           [("type", Json.str "string"), ("format", Json.str "date")])])]
      { seenRoot := true, defs := [] } :=
  ⟨rfl, rfl, rfl⟩

/-- C5 (amended): a date or date-time field always compiles to the fixed
string/format fragment with the metadata keywords merged in and with the
state untouched; a default value, present or not, is never rendered into
the fragment. -/
theorem c5_temporal_fragment (env : Env) (root : String) (fuel : Nat)
    (dflt : Option Json) (ann : SchemaAnn) (st : St) :
    getFieldSchema env root (fuel + 1) Ty.datetime dflt ann st =
      Res.ok (mergeObj [("type", Json.str "string"),
        ("format", Json.str "date-time")] ann.schema) st ∧
    getFieldSchema env root (fuel + 1) Ty.date dflt ann st =
      Res.ok (mergeObj [("type", Json.str "string"),
        ("format", Json.str "date")] ann.schema) st :=
  ⟨rfl, rfl⟩

/-- C6: the legacy free-function construction style and the typed value
object produce exactly the same keyword mapping (same keys, same renames,
same order) for every assignment of the thirteen optional metadata fields
the free function exposes, and an entirely absent assignment produces the
empty mapping, never null-valued keywords. -/
theorem c6_metadata_styles_agree
    (t d e dep minl maxl pat fmt mini maxi emin emax mof : Option Json) :
    dcsAnn t d e dep minl maxl pat fmt mini maxi emin emax mof =
      SchemaAnn.schema
        ⟨t, d, e, dep, minl, maxl, pat, fmt, mini, maxi, emin, emax, mof,
         none, none, none⟩ ∧
    dcsAnn none none none none none none none none none none none none
      none = [] ∧
    SchemaAnn.schema annEmpty = [] := by
  refine ⟨?_, rfl, rfl⟩
  simp [dcsAnn, SchemaAnn.schema, optEntry]

/-- C8: a mapping type with a present key type argument other than text
makes the compiler fail with the structural-contract assertion; no fragment
is ever returned for it, and a document compilation containing such a field
fails end to end. -/
theorem c8_dict_key_must_be_text (env : Env) (root : String) (fuel : Nat)
    (k v : Ty) (dflt : Option Json) (ann : SchemaAnn) (st : St)
    (hk : k ≠ Ty.str) :
    getFieldSchema env root (fuel + 1) (Ty.dictKV k v) dflt ann st =
      Res.fail (Err.assertFail "dict key type must be str") ∧
    (∀ frag st', getFieldSchema env root (fuel + 1) (Ty.dictKV k v) dflt ann
      st ≠ Res.ok frag st') ∧
    getSchema envBadDict "D" 9 =
      Res.fail (Err.assertFail "dict key type must be str") := by
  have h1 : getFieldSchema env root (fuel + 1) (Ty.dictKV k v) dflt ann st =
      Res.fail (Err.assertFail "dict key type must be str") := by
    cases k with
    | str => exact absurd rfl hk
    | dc name => rfl
    | union args => rfl
    | lit vals => rfl
    | annotated base payloads => rfl
    | dict0 => rfl
    | dictKV k2 v2 => rfl
    | list0 => rfl
    | list1 e => rfl
    | tuple0 => rfl
    | tupleRep e => rfl
    | tupleN args => rfl
    | set0 => rfl
    | set1 e => rfl
    | nul => rfl
    | bool => rfl
    | int => rfl
    | number => rfl
    | enum name values => rfl
    | datetime => rfl
    | date => rfl
  refine ⟨h1, ?_, rfl⟩
  intro frag st' hok
  rw [h1] at hok
  exact Res.noConfusion hok

/-- C8 witness: the structural error at the concrete integer key type. -/
theorem c8_witness :
    getFieldSchema [] "R" 3 (Ty.dictKV Ty.int Ty.str) none annEmpty initSt =
      Res.fail (Err.assertFail "dict key type must be str") :=
  (c8_dict_key_must_be_text [] "R" 2 Ty.int Ty.str none annEmpty initSt
    (fun h => Ty.noConfusion h)).1

/-- The compiler loops forever on the non-root self-referential dataclass B:
the registry check happens before B is registered, and B is registered only
after its fragment is fully built, so the recursion re-enters B's compilation
with an unchanged state at every pass. -/
theorem cyc_loop : ∀ n : Nat,
    getDcSchema envCyc "A" n "B" annEmpty ⟨true, []⟩ = Res.fuelOut := by
  intro n
  induction n using Nat.strong_induction_on with
  | _ n IH =>
    cases n with
    | zero => rfl
    | succ n1 =>
      cases n1 with
      | zero => rfl
      | succ n2 =>
        cases n2 with
        | zero => rfl
        | succ n3 =>
          cases n3 with
          | zero => rfl
          | succ r =>
            have hr := IH r (by omega)
            simp only [envCyc, dcA, dcB, fieldToB] at hr
            simp [getDcSchema, createDcSchema, compileFields, getFieldSchema,
              lookupDc, envCyc, dcA, dcB, fieldToB, hasKey, hr]

/-- A full compilation of the cyclic graph runs out of any amount of fuel:
the run reaches B and then loops. -/
theorem getSchema_cyc : ∀ fuel : Nat,
    getSchema envCyc "A" fuel = Res.fuelOut := by
  intro fuel
  cases fuel with
  | zero => rfl
  | succ n1 =>
    cases n1 with
    | zero => rfl
    | succ n2 =>
      cases n2 with
      | zero => rfl
      | succ n3 =>
        cases n3 with
        | zero => rfl
        | succ r =>
          have hr := cyc_loop r
          simp only [envCyc, dcA, dcB, fieldToB] at hr
          simp [getSchema, getDcSchema, createDcSchema, compileFields,
            getFieldSchema, lookupDc, envCyc, dcA, dcB, fieldToB, hasKey,
            initSt, hr]

/-- C1 counterexample: on the concrete graph where non-root B refers to
itself (reached from root A), no amount of fuel makes getSchema return a
document — the Python original recurses without bound, so the claim that
every finite type graph (including mutual recursion among non-root named
types) terminates is false. -/
theorem c1_nonroot_cycle_diverges :
    ¬ ∃ (fuel : Nat) (frag : Obj) (st' : St),
      getSchema envCyc "A" fuel = Res.ok frag st' := by
  rintro ⟨fuel, frag, st', h⟩
  rw [getSchema_cyc fuel] at h
  exact Res.noConfusion h

/-- C1 (amended): the two cycle-breaking devices the code actually has act
only on an already-seen root and on already-registered names: once the root
has been emitted, compiling the root again returns the whole-document
reference with unchanged state and no re-descent, and once a non-root name
is in the registry, compiling it returns the definition reference with
unchanged state and no re-descent.  Cycles through the root therefore
terminate, but a non-root named type is registered only after its fragment
is fully compiled, so mutual recursion among non-root record types never
reaches the registry check in a registered state and diverges. -/
theorem c1_cycle_breaking_on_seen (env : Env) (root : String) (fuel : Nat)
    (name : String) (ann : SchemaAnn) (st : St) :
    (st.seenRoot = true →
      getDcSchema env root (fuel + 1) root ann st =
        Res.ok (mergeObj [("allOf", refRoot)] ann.schema) st) ∧
    (name ≠ root → hasKey st.defs name = true →
      getDcSchema env root (fuel + 1) name ann st =
        Res.ok (mergeObj [("allOf", refDefs name)] ann.schema) st) := by
  constructor
  · intro hseen
    show (if root = root then _ else _) = _
    rw [if_pos rfl, if_pos hseen]
  · intro hname hkey
    show (if name = root then _ else _) = _
    rw [if_neg hname, if_pos hkey]

/-- C1 witness: the seen-root and registered-name reference returns at
concrete inputs, and a root-only self-reference cycle terminating. -/
theorem c1_witness :
    getDcSchema envCyc "A" 7 "A" annEmpty ⟨true, []⟩ =
      Res.ok (mergeObj [("allOf", refRoot)] annEmpty.schema) ⟨true, []⟩ ∧
    getDcSchema envCyc "A" 7 "B" annEmpty
      ⟨true, [("B", Json.obj [])]⟩ =
      Res.ok (mergeObj [("allOf", refDefs "B")] annEmpty.schema)
        ⟨true, [("B", Json.obj [])]⟩ :=
  ⟨(c1_cycle_breaking_on_seen envCyc "A" 6 "X" annEmpty ⟨true, []⟩).1 rfl,
   (c1_cycle_breaking_on_seen envCyc "A" 6 "B" annEmpty
     ⟨true, [("B", Json.obj [])]⟩).2 (by decide) rfl⟩

/-- C2: every compilation of a non-root named type (record type via
get_dc_schema, named enumeration via get_enum_schema) returns the allOf
reference fragment with the site's metadata spread in, regardless of whether
the registry entry was just inserted or already present; afterwards the name
is registered, registry keys stay distinct (so the name has exactly one
entry), and a full document compilation keeps the registry duplicate-free. -/
theorem c2_single_defs_entry (env : Env) (root : String) (fuel : Nat)
    (name : String) (ann : SchemaAnn) (st : St) :
    (∀ frag st', name ≠ root →
      getDcSchema env root fuel name ann st = Res.ok frag st' →
      frag = mergeObj [("allOf", refDefs name)] ann.schema ∧
      name ∈ keys st'.defs ∧
      ((keys st.defs).Nodup →
        (keys st'.defs).Nodup ∧ (keys st'.defs).count name = 1)) ∧
    (∀ values dflt frag st',
      getEnumSchema name values dflt ann st = Res.ok frag st' →
      frag = mergeObj ([("allOf", refDefs name)] ++ optEntry "default" dflt)
        ann.schema ∧
      name ∈ keys st'.defs ∧
      ((keys st.defs).Nodup →
        (keys st'.defs).Nodup ∧ (keys st'.defs).count name = 1)) ∧
    (∀ doc stF, getSchema env root fuel = Res.ok doc stF →
      (keys stF.defs).Nodup) := by
  refine ⟨?_, ?_, ?_⟩
  · intro frag st' hne h
    cases fuel with
    | zero => exact Res.noConfusion h
    | succ n =>
      by_cases hk : hasKey st.defs name = true
      · have h' : Res.ok (mergeObj [("allOf", refDefs name)] ann.schema) st =
            Res.ok frag st' := by
          rw [← h]
          show _ = if name = root then _ else _
          rw [if_neg hne, if_pos hk]
        injection h' with h1 h2
        subst h2
        have hmem : name ∈ keys st.defs := (hasKey_iff _ _).mp hk
        exact ⟨h1.symm, hmem,
          fun hnd => ⟨hnd, List.count_eq_one_of_mem hnd hmem⟩⟩
      · have h' : (match createDcSchema env root n name st with
            | Res.ok frag st' =>
              Res.ok (mergeObj [("allOf", refDefs name)] ann.schema)
                { seenRoot := st'.seenRoot,
                  defs := insertKV st'.defs name (Json.obj frag) }
            | r => r) = Res.ok frag st' := by
          rw [← h]
          show _ = if name = root then _ else _
          rw [if_neg hne, if_neg hk]
        cases hc : createDcSchema env root n name st with
        | ok f2 s2 =>
          rw [hc] at h'
          injection h' with h1 h2
          subst h2
          have hmem : name ∈ keys (insertKV s2.defs name (Json.obj f2)) :=
            mem_keys_insertKV_self _ _ _
          refine ⟨h1.symm, hmem, fun hnd => ?_⟩
          have hpre := ((compile_evo env root n).2.1 name st f2 s2 hc).1
          have hnd2 : (keys (insertKV s2.defs name (Json.obj f2))).Nodup :=
            nodup_keys_insertKV _ _ _ (hpre.2 hnd)
          exact ⟨hnd2, List.count_eq_one_of_mem hnd2 hmem⟩
        | fail e => rw [hc] at h'; exact Res.noConfusion h'
        | fuelOut => rw [hc] at h'; exact Res.noConfusion h'
  · intro values dflt frag st' h
    rw [getEnumSchema] at h
    by_cases hk : hasKey st.defs name = true
    · rw [if_pos hk] at h
      injection h with h1 h2
      subst h2
      have hmem : name ∈ keys st.defs := (hasKey_iff _ _).mp hk
      exact ⟨h1.symm, hmem,
        fun hnd => ⟨hnd, List.count_eq_one_of_mem hnd hmem⟩⟩
    · rw [if_neg hk] at h
      injection h with h1 h2
      subst h2
      have hmem : name ∈ keys (insertKV st.defs name
          (Json.obj [("title", Json.str name), ("enum", Json.arr values)])) :=
        mem_keys_insertKV_self _ _ _
      refine ⟨h1.symm, hmem, fun hnd => ?_⟩
      have hnd2 := nodup_keys_insertKV st.defs name
        (Json.obj [("title", Json.str name), ("enum", Json.arr values)]) hnd
      exact ⟨hnd2, List.count_eq_one_of_mem hnd2 hmem⟩
  · intro doc stF h
    have h' : (match getDcSchema env root fuel root annEmpty initSt with
        | Res.ok frag st =>
          Res.ok (mergeObj [("$schema", Json.str dialect)]
            (if st.defs.isEmpty then frag
             else insertKV frag "$defs" (Json.obj st.defs))) st
        | r => r) = Res.ok doc stF := h
    cases hg : getDcSchema env root fuel root annEmpty initSt with
    | ok frag st2 =>
      rw [hg] at h'
      injection h' with h1 h2
      subst h2
      have hpre := ((compile_evo env root fuel).1 root annEmpty initSt
        frag st2 hg).1
      exact hpre.2 (by simp [initSt, keys])
    | fail e => rw [hg] at h'; exact Res.noConfusion h'
    | fuelOut => rw [hg] at h'; exact Res.noConfusion h'

/-- C2 witness: concrete two-path reuse of C, a registered enum H, and the
final registry of the two-path document. -/
theorem c2_witness :
    ("C" ∈ keys [("C", Json.obj
      [("type", Json.str "object"), ("title", Json.str "C"),
       ("properties", Json.obj
         [("x", Json.obj [("type", Json.str "string")])]),
       ("required", Json.arr [Json.str "x"])])] ∧
     (keys [("C", Json.obj
      [("type", Json.str "object"), ("title", Json.str "C"),
       ("properties", Json.obj
         [("x", Json.obj [("type", Json.str "string")])]),
       ("required", Json.arr [Json.str "x"])])]).count "C" = 1) ∧
    ("H" ∈ keys [("H", Json.obj
      [("title", Json.str "H"), ("enum", Json.arr [Json.num 1])])]) := by
  have hdc := (c2_single_defs_entry envTwoPath "R" 10 "C" annEmpty
    ⟨true, []⟩).1
    (mergeObj [("allOf", refDefs "C")] annEmpty.schema)
    ⟨true, [("C", Json.obj
      [("type", Json.str "object"), ("title", Json.str "C"),
       ("properties", Json.obj
         [("x", Json.obj [("type", Json.str "string")])]),
       ("required", Json.arr [Json.str "x"])])]⟩
    (by decide) rfl
  have hen := (c2_single_defs_entry envTwoPath "R" 10 "H" annEmpty
    ⟨true, []⟩).2.1 [Json.num 1] (some (Json.num 1))
    (mergeObj ([("allOf", refDefs "H")] ++
      optEntry "default" (some (Json.num 1))) annEmpty.schema)
    ⟨true, [("H", Json.obj
      [("title", Json.str "H"), ("enum", Json.arr [Json.num 1])])]⟩
    rfl
  exact ⟨⟨hdc.2.1, (hdc.2.2 (by simp [keys])).2⟩, hen.2.1⟩

/-- C3: the first occurrence of the root compiles inline (it is exactly the
full object fragment built by create_dc_schema, which carries
`type: object`), every later reference to the root anywhere in the graph is
the whole-document reference fragment with the site's metadata spread in and
no state change, and no registry entry is ever created under the root's name
(assuming, per the spec's name-uniqueness rule, no enumeration shares the
root's name), neither during any call nor in the final document. -/
theorem c3_root_inline_then_self_ref (env : Env) (root : String) (fuel : Nat)
    (ann : SchemaAnn) (st : St) :
    (st.seenRoot = false →
      getDcSchema env root (fuel + 1) root ann st =
        createDcSchema env root fuel root ⟨true, st.defs⟩) ∧
    (st.seenRoot = true →
      getDcSchema env root (fuel + 1) root ann st =
        Res.ok (mergeObj [("allOf", refRoot)] ann.schema) st) ∧
    (∀ frag st', createDcSchema env root (fuel + 1) root st = Res.ok frag st' →
      lookupKey frag "type" = some (Json.str "object")) ∧
    (∀ name frag st', envOkB env root = true → root ∉ keys st.defs →
      getDcSchema env root fuel name ann st = Res.ok frag st' →
      root ∉ keys st'.defs) ∧
    (∀ doc stF, envOkB env root = true →
      getSchema env root fuel = Res.ok doc stF → root ∉ keys stF.defs) := by
  refine ⟨?_, ?_, ?_, ?_, ?_⟩
  · intro hseen
    show (if root = root then _ else _) = _
    rw [if_pos rfl, if_neg (by simp [hseen])]
  · intro hseen
    show (if root = root then _ else _) = _
    rw [if_pos rfl, if_pos hseen]
  · intro frag st' h
    exact createDcSchema_lookup_type env root fuel root st frag st' h
  · intro name frag st' henv hroot h
    exact ((compile_evo env root fuel).1 name ann st frag st' h).2 henv hroot
  · intro doc stF henv h
    have h' : (match getDcSchema env root fuel root annEmpty initSt with
        | Res.ok frag st =>
          Res.ok (mergeObj [("$schema", Json.str dialect)]
            (if st.defs.isEmpty then frag
             else insertKV frag "$defs" (Json.obj st.defs))) st
        | r => r) = Res.ok doc stF := h
    cases hg : getDcSchema env root fuel root annEmpty initSt with
    | ok frag st2 =>
      rw [hg] at h'
      injection h' with h1 h2
      subst h2
      exact ((compile_evo env root fuel).1 root annEmpty initSt frag st2
        hg).2 henv (by simp [initSt, keys])
    | fail e => rw [hg] at h'; exact Res.noConfusion h'
    | fuelOut => rw [hg] at h'; exact Res.noConfusion h'

/-- C3 witness: the root self-reference fragment at a concrete state, and
the final registry of the two-path document containing no entry under the
root's name. -/
theorem c3_witness :
    getDcSchema envTwoPath "R" 5 "R" annEmpty ⟨true, []⟩ =
      Res.ok (mergeObj [("allOf", refRoot)] annEmpty.schema) ⟨true, []⟩ ∧
    "R" ∉ keys [("C", Json.obj
      [("type", Json.str "object"), ("title", Json.str "C"),
       ("properties", Json.obj
         [("x", Json.obj [("type", Json.str "string")])]),
       ("required", Json.arr [Json.str "x"])])] :=
  ⟨(c3_root_inline_then_self_ref envTwoPath "R" 4 annEmpty ⟨true, []⟩).2.1 rfl,
   (c3_root_inline_then_self_ref envTwoPath "R" 20 annEmpty
     ⟨true, []⟩).2.2.2.2
     [("$schema", Json.str dialect),
      ("type", Json.str "object"),
      ("title", Json.str "R"),
      ("properties", Json.obj
        [("a", Json.obj [("allOf",
           Json.arr [Json.obj [("$ref", Json.str "#/$defs/C")]])]),
         ("b", Json.obj [("allOf",
           Json.arr [Json.obj [("$ref", Json.str "#/$defs/C")]])])]),
      ("required", Json.arr [Json.str "a", Json.str "b"]),
      ("$defs", Json.obj
        [("C", Json.obj
          [("type", Json.str "object"), ("title", Json.str "C"),
           ("properties", Json.obj
             [("x", Json.obj [("type", Json.str "string")])]),
           ("required", Json.arr [Json.str "x"])])])]
     ⟨true, [("C", Json.obj
       [("type", Json.str "object"), ("title", Json.str "C"),
        ("properties", Json.obj
          [("x", Json.obj [("type", Json.str "string")])]),
        ("required", Json.arr [Json.str "x"])])]⟩
     rfl rfl⟩

/-- C4: in a full object fragment, the `required` keyword lists exactly the
names of the fields that have neither a default value nor a
default-producing factory, in declaration order (independently of whether
the declared type permits null), and the keyword is omitted entirely (not
present as an empty list) when no field qualifies. -/
theorem c4_required_fields (env : Env) (root : String) (fuel : Nat)
    (name : String) (d : DcDef) (st : St) (frag : Obj) (st' : St)
    (hd : lookupDc env name = some d)
    (h : createDcSchema env root (fuel + 1) name st = Res.ok frag st') :
    lookupKey frag "required" =
      (if ((d.fields.filter
          (fun f => f.default.isNone && !f.hasFactory)).map Field.name).isEmpty
       then none
       else some (Json.arr (((d.fields.filter
          (fun f => f.default.isNone && !f.hasFactory)).map
            Field.name).map Json.str))) := by
  obtain ⟨d2, props, req, hd2, hc, hfrag⟩ :=
    createDcSchema_shape env root fuel name st frag st' h
  rw [hd] at hd2
  injection hd2 with hdd
  subst hdd
  have hreq := compileFields_req env root d.fields fuel st props req st' hc
  have hnot1 : "required" ∉ keys (mergeObj
      [("type", Json.str "object"), ("title", Json.str name)]
      (configAnn d).schema) := fun hm => by
    rcases mem_keys_mergeObj_elim _ _ _ hm with hm | hm
    · revert hm; simp [keys]
    · have := mem_annKeys_of_mem_schema _ _ hm
      revert this
      decide
  have hnot2 : "required" ∉ keys (mergeObj
      [("type", Json.str "object"), ("title", Json.str name)]
      (configAnn d).schema ++ [("properties", Json.obj props)]) := by
    rw [keys_append]
    intro hm
    rcases List.mem_append.mp hm with hm | hm
    · exact hnot1 hm
    · revert hm; simp [keys]
  rw [hfrag, lookupKey_append_right _ _ _ hnot2, reqEntry, hreq]
  cases hempty : ((d.fields.filter
      (fun f => f.default.isNone && !f.hasFactory)).map Field.name).isEmpty with
  | true => simp [lookupKey]
  | false => simp [lookupKey]

/-- C4 witness: a record with a plain required field, a defaulted field and
a nullable-but-defaultless field lists exactly the first and third; a record
whose only field has a default omits `required` entirely. -/
theorem c4_witness :
    lookupKey
      [("type", Json.str "object"), ("title", Json.str "M"),
       ("properties", Json.obj
         [("a", Json.obj [("type", Json.str "boolean")]),
          ("b", Json.obj [("type", Json.str "integer"),
            ("default", Json.num 3)]),
          ("c", Json.obj [("anyOf", Json.arr
            [Json.obj [("type", Json.str "integer")],
             Json.obj [("type", Json.str "null")]])])]),
       ("required", Json.arr [Json.str "a", Json.str "c"])] "required" =
      some (Json.arr [Json.str "a", Json.str "c"]) ∧
    lookupKey
      [("type", Json.str "object"), ("title", Json.str "T"),
       ("properties", Json.obj
         [("d", Json.obj [("type", Json.str "string"),
           ("format", Json.str "date")])])] "required" = none := by
  constructor
  · have := c4_required_fields envMix "M" 9 "M" dcMix initSt
      [("type", Json.str "object"), ("title", Json.str "M"),
       ("properties", Json.obj
         [("a", Json.obj [("type", Json.str "boolean")]),
          ("b", Json.obj [("type", Json.str "integer"),
            ("default", Json.num 3)]),
          ("c", Json.obj [("anyOf", Json.arr
            [Json.obj [("type", Json.str "integer")],
             Json.obj [("type", Json.str "null")]])])]),
       ("required", Json.arr [Json.str "a", Json.str "c"])]
      initSt rfl rfl
    simpa using this
  · have := c4_required_fields envDate "T" 9 "T" dcDate initSt
      [("type", Json.str "object"), ("title", Json.str "T"),
       ("properties", Json.obj
         [("d", Json.obj [("type", Json.str "string"),
           ("format", Json.str "date")])])]
      initSt rfl rfl
    simpa using this

/-- C7: a successful document compilation yields exactly the dialect tag
first (the "$schema" key mapping to the fixed 2020-12 dialect string), the
root object fragment's keys spread after it, and a "$defs" key if and only
if the final registry is non-empty — an empty registry never produces a
"$defs" key. -/
theorem c7_document_assembly (env : Env) (root : String) (fuel : Nat)
    (doc : Obj) (stF : St)
    (h : getSchema env root fuel = Res.ok doc stF) :
    ∃ frag, getDcSchema env root fuel root annEmpty initSt =
        Res.ok frag stF ∧
      doc = mergeObj [("$schema", Json.str dialect)]
        (if stF.defs.isEmpty then frag
         else insertKV frag "$defs" (Json.obj stF.defs)) ∧
      lookupKey doc "$schema" = some (Json.str dialect) ∧
      (hasKey doc "$defs" = true ↔ stF.defs ≠ []) := by
  cases fuel with
  | zero => exact Res.noConfusion h
  | succ n =>
    have h' : (match getDcSchema env root (n + 1) root annEmpty initSt with
        | Res.ok frag st =>
          Res.ok (mergeObj [("$schema", Json.str dialect)]
            (if st.defs.isEmpty then frag
             else insertKV frag "$defs" (Json.obj st.defs))) st
        | r => r) = Res.ok doc stF := h
    cases hg : getDcSchema env root (n + 1) root annEmpty initSt with
    | ok frag st2 =>
      rw [hg] at h'
      injection h' with h1 h2
      subst h2
      have hg2 : createDcSchema env root n root
          { seenRoot := true, defs := initSt.defs } = Res.ok frag st2 := by
        rw [← hg]
        show _ = if root = root then _ else _
        rw [if_pos rfl, if_neg (by simp [initSt])]
      have hnoschema : "$schema" ∉ keys frag := by
        cases n with
        | zero => exact Res.noConfusion hg2
        | succ m =>
          rw [← lookupKey_eq_none_iff]
          exact createDcSchema_lookup_none env root m root _ frag st2 hg2
            "$schema" (by decide) (by decide) (by decide) (by decide)
            (by decide)
      have hnodefs : "$defs" ∉ keys frag := by
        cases n with
        | zero => exact Res.noConfusion hg2
        | succ m =>
          rw [← lookupKey_eq_none_iff]
          exact createDcSchema_lookup_none env root m root _ frag st2 hg2
            "$defs" (by decide) (by decide) (by decide) (by decide)
            (by decide)
      refine ⟨frag, rfl, h1.symm, ?_, ?_⟩
      · rw [← h1]
        have hnot : "$schema" ∉ keys (if st2.defs.isEmpty then frag
            else insertKV frag "$defs" (Json.obj st2.defs)) := by
          cases hemp : st2.defs.isEmpty with
          | true => simpa using hnoschema
          | false =>
            intro hm
            rcases mem_keys_insertKV_elim _ _ _ _ (by simpa using hm) with
              hm2 | hm2
            · exact hnoschema hm2
            · revert hm2; decide
        rw [lookupKey_mergeObj_not_mem _ _ _ hnot]
        rfl
      · rw [← h1, hasKey_iff]
        cases hemp : st2.defs.isEmpty with
        | true =>
          have hnil : st2.defs = [] := by simpa using hemp
          constructor
          · intro hm
            rcases mem_keys_mergeObj_elim _ _ _ (by simpa using hm) with
              hm2 | hm2
            · revert hm2; simp [keys]
            · exact absurd hm2 hnodefs
          · intro hne
            exact absurd hnil hne
        | false =>
          have hne : st2.defs ≠ [] := by
            intro hnil
            rw [hnil] at hemp
            exact Bool.noConfusion hemp
          constructor
          · intro _; exact hne
          · intro _
            have : "$defs" ∈ keys (insertKV frag "$defs"
                (Json.obj st2.defs)) := mem_keys_insertKV_self _ _ _
            simpa using mem_keys_mergeObj_right
              [("$schema", Json.str dialect)] _ "$defs" this
    | fail e => rw [hg] at h'; exact Res.noConfusion h'
    | fuelOut => rw [hg] at h'; exact Res.noConfusion h'

/-- C7 witness: the concrete two-path document opens with the dialect tag
and carries a "$defs" key for its non-empty registry. -/
theorem c7_witness :
    lookupKey
      [("$schema", Json.str dialect),
       ("type", Json.str "object"),
       ("title", Json.str "R"),
       ("properties", Json.obj
         [("a", Json.obj [("allOf",
            Json.arr [Json.obj [("$ref", Json.str "#/$defs/C")]])]),
          ("b", Json.obj [("allOf",
            Json.arr [Json.obj [("$ref", Json.str "#/$defs/C")]])])]),
       ("required", Json.arr [Json.str "a", Json.str "b"]),
       ("$defs", Json.obj
         [("C", Json.obj
           [("type", Json.str "object"), ("title", Json.str "C"),
            ("properties", Json.obj
              [("x", Json.obj [("type", Json.str "string")])]),
            ("required", Json.arr [Json.str "x"])])])]
      "$schema" = some (Json.str dialect) ∧
    hasKey
      [("$schema", Json.str dialect),
       ("type", Json.str "object"),
       ("title", Json.str "R"),
       ("properties", Json.obj
         [("a", Json.obj [("allOf",
            Json.arr [Json.obj [("$ref", Json.str "#/$defs/C")]])]),
          ("b", Json.obj [("allOf",
            Json.arr [Json.obj [("$ref", Json.str "#/$defs/C")]])])]),
       ("required", Json.arr [Json.str "a", Json.str "b"]),
       ("$defs", Json.obj
         [("C", Json.obj
           [("type", Json.str "object"), ("title", Json.str "C"),
            ("properties", Json.obj
              [("x", Json.obj [("type", Json.str "string")])]),
            ("required", Json.arr [Json.str "x"])])])]
      "$defs" = true := by
  obtain ⟨frag, hfrag, hdoc, hschema, hdefs⟩ :=
    c7_document_assembly envTwoPath "R" 20
      [("$schema", Json.str dialect),
       ("type", Json.str "object"),
       ("title", Json.str "R"),
       ("properties", Json.obj
         [("a", Json.obj [("allOf",
            Json.arr [Json.obj [("$ref", Json.str "#/$defs/C")]])]),
          ("b", Json.obj [("allOf",
            Json.arr [Json.obj [("$ref", Json.str "#/$defs/C")]])])]),
       ("required", Json.arr [Json.str "a", Json.str "b"]),
       ("$defs", Json.obj
         [("C", Json.obj
           [("type", Json.str "object"), ("title", Json.str "C"),
            ("properties", Json.obj
              [("x", Json.obj [("type", Json.str "string")])]),
            ("required", Json.arr [Json.str "x"])])])]
      ⟨true, [("C", Json.obj
        [("type", Json.str "object"), ("title", Json.str "C"),
         ("properties", Json.obj
           [("x", Json.obj [("type", Json.str "string")])]),
         ("required", Json.arr [Json.str "x"])])]⟩
      rfl
  exact ⟨hschema, hdefs.mpr (by simp)⟩

/-- C9: a dataclass with a SchemaConfig annotation payload has that
payload's keywords merged into its full object fragment (each payload
keyword is looked up to its value in the fragment), a dataclass without one
gets exactly the bare structural keys; the same fragment is what the root
case compiles inline (the root branch defers to create_dc_schema) and what
the non-root case stores as the registry entry. -/
theorem c9_schemaconfig_merged (env : Env) (root : String) (fuel : Nat)
    (name : String) (d : DcDef) (st : St) (frag : Obj) (st' : St)
    (hd : lookupDc env name = some d)
    (h : createDcSchema env root (fuel + 1) name st = Res.ok frag st') :
    (∀ a, d.config = some a → ∀ k v, (k, v) ∈ a.schema →
      lookupKey frag k = some v) ∧
    (d.config = none → ∃ props reqPart,
      frag = [("type", Json.str "object"), ("title", Json.str name),
        ("properties", Json.obj props)] ++ reqPart) ∧
    (∀ ann, name ≠ root → hasKey st.defs name = false →
      getDcSchema env root (fuel + 2) name ann st =
        Res.ok (mergeObj [("allOf", refDefs name)] ann.schema)
          ⟨st'.seenRoot, insertKV st'.defs name (Json.obj frag)⟩ ∧
      lookupKey (insertKV st'.defs name (Json.obj frag)) name =
        some (Json.obj frag)) ∧
    (∀ ann defs0,
      getDcSchema env root (fuel + 2) root ann { seenRoot := false, defs := defs0 } =
        createDcSchema env root (fuel + 1) root
          { seenRoot := true, defs := defs0 }) := by
  obtain ⟨d2, props, req, hd2, hc, hfrag⟩ :=
    createDcSchema_shape env root fuel name st frag st' h
  rw [hd] at hd2
  injection hd2 with hdd
  subst hdd
  refine ⟨?_, ?_, ?_, ?_⟩
  · intro a hcfg k v hkv
    have hca : configAnn d = a := by rw [configAnn, hcfg]
    rw [hca] at hfrag
    have hlx : lookupKey (mergeObj
        [("type", Json.str "object"), ("title", Json.str name)] a.schema) k =
        some v :=
      lookupKey_mergeObj_mem _ _ _ _ (nodup_keys_schema a) hkv
    have hkX : k ∈ keys (mergeObj
        [("type", Json.str "object"), ("title", Json.str name)] a.schema) := by
      by_contra hno
      rw [(lookupKey_eq_none_iff _ _).mpr hno] at hlx
      exact Option.noConfusion hlx
    rw [hfrag,
      lookupKey_append_left _ _ _ (by
        rw [keys_append]; exact List.mem_append_left _ hkX),
      lookupKey_append_left _ _ _ hkX]
    exact hlx
  · intro hcfg
    have hca : configAnn d = annEmpty := by rw [configAnn, hcfg]
    rw [hca] at hfrag
    have hemp : SchemaAnn.schema annEmpty = [] := rfl
    rw [hemp, mergeObj_nil] at hfrag
    exact ⟨props, reqEntry req, hfrag⟩
  · intro ann hne hkey
    have e : getDcSchema env root (fuel + 2) name ann st =
        (match createDcSchema env root (fuel + 1) name st with
          | Res.ok frag st' =>
            Res.ok (mergeObj [("allOf", refDefs name)] ann.schema)
              { seenRoot := st'.seenRoot,
                defs := insertKV st'.defs name (Json.obj frag) }
          | r => r) := by
      show (if name = root then _ else _) = _
      rw [if_neg hne, if_neg (by simp [hkey])]
    rw [e, h]
    exact ⟨rfl, lookupKey_insertKV_self _ _ _⟩
  · intro ann defs0
    show (if root = root then _ else _) = _
    rw [if_pos rfl, if_neg (by simp)]

/-- C9 witness: the configured dataclass Q has its title and description
keywords in both the inline fragment and the registry entry; its fragment
is stored verbatim in the registry. -/
theorem c9_witness :
    lookupKey
      [("type", Json.str "object"), ("title", Json.str "the Q"),
       ("description", Json.str "a Q record"),
       ("properties", Json.obj
         [("x", Json.obj [("type", Json.str "integer")])]),
       ("required", Json.arr [Json.str "x"])] "title" =
      some (Json.str "the Q") ∧
    lookupKey
      [("type", Json.str "object"), ("title", Json.str "the Q"),
       ("description", Json.str "a Q record"),
       ("properties", Json.obj
         [("x", Json.obj [("type", Json.str "integer")])]),
       ("required", Json.arr [Json.str "x"])] "description" =
      some (Json.str "a Q record") ∧
    lookupKey (insertKV [] "Q" (Json.obj
      [("type", Json.str "object"), ("title", Json.str "the Q"),
       ("description", Json.str "a Q record"),
       ("properties", Json.obj
         [("x", Json.obj [("type", Json.str "integer")])]),
       ("required", Json.arr [Json.str "x"])])) "Q" =
      some (Json.obj
      [("type", Json.str "object"), ("title", Json.str "the Q"),
       ("description", Json.str "a Q record"),
       ("properties", Json.obj
         [("x", Json.obj [("type", Json.str "integer")])]),
       ("required", Json.arr [Json.str "x"])]) := by
  have hmain := c9_schemaconfig_merged envConfig "P" 9 "Q" dcQ ⟨true, []⟩
    [("type", Json.str "object"), ("title", Json.str "the Q"),
     ("description", Json.str "a Q record"),
     ("properties", Json.obj
       [("x", Json.obj [("type", Json.str "integer")])]),
     ("required", Json.arr [Json.str "x"])]
    ⟨true, []⟩ rfl rfl
  have hsch : annTitled.schema =
      [("title", Json.str "the Q"), ("description", Json.str "a Q record")] :=
    rfl
  refine ⟨?_, ?_, ?_⟩
  · exact hmain.1 annTitled rfl "title" (Json.str "the Q")
      (by rw [hsch]; exact List.mem_cons_self _ _)
  · exact hmain.1 annTitled rfl "description" (Json.str "a Q record")
      (by rw [hsch]; exact List.mem_cons_of_mem _ (List.mem_cons_self _ _))
  · exact (hmain.2.2.1 annEmpty (by decide) rfl).2

/-- C10: a field with a default-producing factory and no plain default gets
a property fragment with no `default` keyword (the factory value is never
rendered), while still being excluded from the `required` list. -/
theorem c10_factory_field (env : Env) (root : String) (fuel : Nat)
    (name : String) (d : DcDef) (st : St) (frag : Obj) (st' : St) (f : Field)
    (hd : lookupDc env name = some d)
    (hnd : (d.fields.map Field.name).Nodup)
    (hf : f ∈ d.fields) (hdef : f.default = none)
    (hfac : f.hasFactory = true)
    (h : createDcSchema env root (fuel + 1) name st = Res.ok frag st') :
    (∃ props pfrag,
      lookupKey frag "properties" = some (Json.obj props) ∧
      lookupKey props f.name = some (Json.obj pfrag) ∧
      lookupKey pfrag "default" = none) ∧
    (∀ xs, lookupKey frag "required" = some (Json.arr xs) →
      Json.str f.name ∉ xs) := by
  obtain ⟨d2, props, req, hd2, hc, hfrag⟩ :=
    createDcSchema_shape env root fuel name st frag st' h
  rw [hd] at hd2
  injection hd2 with hdd
  subst hdd
  have hnot1 : "properties" ∉ keys (mergeObj
      [("type", Json.str "object"), ("title", Json.str name)]
      (configAnn d).schema) := fun hm => by
    rcases mem_keys_mergeObj_elim _ _ _ hm with hm | hm
    · revert hm; simp [keys]
    · have := mem_annKeys_of_mem_schema _ _ hm
      revert this
      decide
  constructor
  · obtain ⟨n1, st1, pfrag, st2, hcall, hlook⟩ :=
      compileFields_props env root d.fields fuel st props req st' f hc hnd hf
    refine ⟨props, pfrag, ?_, hlook, ?_⟩
    · rw [hfrag,
        lookupKey_append_left _ _ _ (by
          rw [keys_append]
          refine List.mem_append_right _ ?_
          simp [keys]),
        lookupKey_append_right _ _ _ hnot1]
      rfl
    · rw [hdef] at hcall
      exact getFieldSchema_no_default env root n1 f.type annEmpty st1 pfrag
        st2 hcall
  · intro xs hxs
    have hreq := compileFields_req env root d.fields fuel st props req st' hc
    have hnot2 : "required" ∉ keys (mergeObj
        [("type", Json.str "object"), ("title", Json.str name)]
        (configAnn d).schema ++ [("properties", Json.obj props)]) := by
      rw [keys_append]
      intro hm
      rcases List.mem_append.mp hm with hm | hm
      · rcases mem_keys_mergeObj_elim _ _ _ hm with hm | hm
        · revert hm; simp [keys]
        · have := mem_annKeys_of_mem_schema _ _ hm
          revert this
          decide
      · revert hm; simp [keys]
    rw [hfrag, lookupKey_append_right _ _ _ hnot2, reqEntry] at hxs
    cases hemp : req.isEmpty with
    | true =>
      rw [if_pos hemp] at hxs
      exact Option.noConfusion hxs
    | false =>
      rw [if_neg (by simp [hemp])] at hxs
      have hxseq : xs = req.map Json.str := by
        have : Json.arr (req.map Json.str) = Json.arr xs := by
          injection (by
            show some _ = some _
            rw [← hxs]
            show lookupKey [("required", Json.arr (req.map Json.str))]
                "required" = _
            rfl : some (Json.arr (req.map Json.str)) = some (Json.arr xs))
        injection this with hx
        exact hx.symm
      rw [hxseq]
      intro hmem
      obtain ⟨nm, hnm, hnmeq⟩ := List.mem_map.mp hmem
      injection hnmeq with hnmeq2
      rw [hreq] at hnm
      obtain ⟨g, hg, hgeq⟩ := List.mem_map.mp hnm
      have hgf : g = f := by
        have hgmem := (List.mem_filter.mp hg).1
        exact List.inj_on_of_nodup_map hnd hgmem hf (by rw [hgeq, hnmeq2])
      have hcond := (List.mem_filter.mp hg).2
      rw [hgf, hdef, hfac] at hcond
      simp at hcond

/-- C10 witness: on the concrete record F (field a with factory, field b
required), field a's property fragment has no `default` and a is absent
from the `required` list. -/
theorem c10_witness :
    Json.str "a" ∉ [Json.str "b"] ∧
    lookupKey [("type", Json.str "integer")] "default" = none := by
  have hm := c10_factory_field envFact "F" 9 "F" dcFact initSt
    [("type", Json.str "object"), ("title", Json.str "F"),
     ("properties", Json.obj
       [("a", Json.obj [("type", Json.str "integer")]),
        ("b", Json.obj [("type", Json.str "string")])]),
     ("required", Json.arr [Json.str "b"])]
    initSt ⟨"a", Ty.int, none, true⟩ rfl (by simp [dcFact])
    (by simp [dcFact]) rfl rfl rfl
  refine ⟨hm.2 [Json.str "b"] rfl, ?_⟩
  obtain ⟨props, pfrag, h1, h2, h3⟩ := hm.1
  have hp : Json.obj props = Json.obj
      [("a", Json.obj [("type", Json.str "integer")]),
       ("b", Json.obj [("type", Json.str "string")])] := by
    injection h1.symm.trans (by rfl :
      lookupKey [("type", Json.str "object"), ("title", Json.str "F"),
        ("properties", Json.obj
          [("a", Json.obj [("type", Json.str "integer")]),
           ("b", Json.obj [("type", Json.str "string")])]),
        ("required", Json.arr [Json.str "b"])] "properties" =
      some (Json.obj
        [("a", Json.obj [("type", Json.str "integer")]),
         ("b", Json.obj [("type", Json.str "string")])]))
  injection hp with hp2
  rw [hp2] at h2
  have hq : Json.obj pfrag = Json.obj [("type", Json.str "integer")] := by
    injection h2.symm.trans (by rfl :
      lookupKey [("a", Json.obj [("type", Json.str "integer")]),
        ("b", Json.obj [("type", Json.str "string")])] "a" =
      some (Json.obj [("type", Json.str "integer")]))
  injection hq with hq2
  rw [hq2] at h3
  exact h3
